import Mathlib

/-!
Verification development for the fumosync project-synchronization core
(`src/project.rs`).

The embedding represents filesystem paths as lists of path segments
(`List String`); `PathBuf::join` is list append.  The local filesystem is an
association list from paths to file contents plus a list of existing
directories.  Every filesystem and network operation of the Rust code is
threaded through an explicit state `St` that also records a trace of the
operations attempted, in order, so that temporal and frame claims can be
stated about the trace.

External collaborators (the HTTP client, login, serde_json) are not in
`src/`; they are modelled from the spec where indicated, with their outcomes
passed in as explicit `Except` parameters.
-/

deriving instance DecidableEq for Except

namespace Fumosync

/-- The `Configuration` struct persisted as `fumosync.json` (src/project.rs). -/
structure Configuration where
  script_name : String
  script_id : String
  whitelist : List String
  is_public : Bool
deriving DecidableEq

/-- Bytes of a file.  `config c` stands for the serde_json serialization of
the configuration `c`; `text s` stands for any other byte string.  This
abstracts the "on-disk JSON parsing mechanics" the spec excludes as an
external collaborator. -/
inductive FileContent
  | text (s : String)
  | config (c : Configuration)
deriving DecidableEq

/-- Modelled from the spec: rendering file bytes as text, as
`tokio::fs::read_to_string` returns them.  For `config c` (serde_json
output, external to `src/`) a definite stand-in rendering is chosen; no
claim reads a configuration file as plain text. -/
def FileContent.asText : FileContent → String
  | .text s => s
  | .config c =>
      String.intercalate "\n" ([c.script_name, c.script_id] ++ c.whitelist)

/-- Modelled from the spec: `serde_json::from_str::<Configuration>` on file
bytes (serde_json is external to `src/`); exactly the serialized form of a
configuration parses back. -/
def parseConfiguration : FileContent → Option Configuration
  | .config c => some c
  | .text _ => none

/-- The error enum.  The variants and their payloads are read off the
constructions in src/project.rs (`Error::CreateFile(path, io_error)` etc.,
with the opaque `io::Error` cause dropped); `Deserialize` is modelled from
the spec's error taxonomy for configuration parse failures, and `Network`
stands for the opaque client/login failures the spec says are propagated
opaquely. -/
inductive Error
  | CreateFile (path : List String)
  | CreateDirectory (path : List String)
  | ReadFile (path : List String)
  | ReadDirectory (path : List String)
  | DirectoryAlreadyExists (path : List String)
  | ProjectDidntInitialize (inner : Error)
  | Deserialize
  | Network (code : Nat)
deriving DecidableEq

/-- Result of `DirEntry::file_type` for an entry. -/
inductive FileType
  | file
  | directory
deriving DecidableEq

/-- One directory entry as seen by `read_dir`: its file name and the result
of the `file_type` lookup (`none` models a failed lookup). -/
structure DirEntry where
  fileName : String
  fileType : Option FileType
deriving DecidableEq

/-- The local filesystem: files (path ↦ bytes, in creation order), existing
directories (in creation order), and the set of paths whose `file_type`
lookup fails transiently. -/
structure FS where
  files : List (List String × FileContent)
  dirs : List (List String)
  broken : List (List String)
deriving DecidableEq

/-- The `EditorUpdate` action variants submitted by push (from the spec's
client interface; `client.rs` is not in `src/`). -/
inductive EditorUpdate
  | Name (s : String)
  | Whitelist (w : List String)
  | Publicity (b : Bool)
  | Description (s : String)
  | MainSource (s : String)
  | Module (name : String) (source : String)
deriving DecidableEq

/-- One attempted operation, local or network, recorded in order. -/
inductive Op
  | readF (path : List String)
  | writeF (path : List String)
  | mkDir (path : List String)
  | readDir (path : List String)
  | getSessionSecrets
  | getEditor (scriptId : String)
  | setEditor (scriptId : String) (actions : List EditorUpdate)
deriving DecidableEq

/-- Execution state: the filesystem plus the trace of attempted operations. -/
structure St where
  fs : FS
  trace : List Op
deriving DecidableEq

/-- First-match lookup in the file association list. -/
def lookupFile : List (List String × FileContent) → List String → Option FileContent
  | [], _ => none
  | kv :: rest, p => if kv.1 = p then some kv.2 else lookupFile rest p

/-- Overwrite-or-append in the file association list. -/
def setFile : List (List String × FileContent) → List String → FileContent →
    List (List String × FileContent)
  | [], p, c => [(p, c)]
  | kv :: rest, p, c => if kv.1 = p then (p, c) :: rest else kv :: setFile rest p c

/-- Path membership in a list of directory paths. -/
def memPath (p : List String) : List (List String) → Bool
  | [] => false
  | q :: rest => if p = q then true else memPath p rest

/-- `Path::exists`: the empty path (the ambient current directory) always
exists; otherwise the path must be a known directory or file. -/
def FS.pathExists (fs : FS) (p : List String) : Bool :=
  p.isEmpty || memPath p fs.dirs || (lookupFile fs.files p).isSome

/-- Whether `p` exists as a directory (the empty path is the ambient
current directory). -/
def FS.dirExists (fs : FS) (p : List String) : Bool :=
  p.isEmpty || memPath p fs.dirs

/-- `write_file` (src/project.rs): `tokio::fs::write`, wrapping any I/O
failure as `Error::CreateFile(path)`.  The write succeeds when the parent
directory exists and the path itself is not a directory. -/
def writeFile (s : St) (p : List String) (c : FileContent) : Except Error Unit × St :=
  if !p.isEmpty && s.fs.dirExists p.dropLast && !memPath p s.fs.dirs then
    (.ok (), ⟨{ s.fs with files := setFile s.fs.files p c }, s.trace ++ [Op.writeF p]⟩)
  else
    (.error (.CreateFile p), ⟨s.fs, s.trace ++ [Op.writeF p]⟩)

/-- `create_directory` (src/project.rs): `tokio::fs::create_dir`, wrapping
any I/O failure as `Error::CreateDirectory(path)`.  Creation succeeds when
the path does not yet exist and its parent directory does. -/
def createDirectory (s : St) (p : List String) : Except Error Unit × St :=
  if !s.fs.pathExists p && s.fs.dirExists p.dropLast then
    (.ok (), ⟨{ s.fs with dirs := s.fs.dirs ++ [p] }, s.trace ++ [Op.mkDir p]⟩)
  else
    (.error (.CreateDirectory p), ⟨s.fs, s.trace ++ [Op.mkDir p]⟩)

/-- `read_file` (src/project.rs): `tokio::fs::read_to_string`, wrapping any
I/O failure as `Error::ReadFile(path)`. -/
def readFile (s : St) (p : List String) : Except Error FileContent × St :=
  match lookupFile s.fs.files p with
  | some c => (.ok c, ⟨s.fs, s.trace ++ [Op.readF p]⟩)
  | none => (.error (.ReadFile p), ⟨s.fs, s.trace ++ [Op.readF p]⟩)

/-- `x` such that `q = dir ++ [x]`, if any: `q` is a direct child of `dir`. -/
def childName : List String → List String → Option String
  | [], [x] => some x
  | d :: ds, q :: ps => if d = q then childName ds ps else none
  | _, _ => none

/-- Directory enumeration: the direct children of `dir`; entries in
`broken` have a failing `file_type` lookup.  The real `read_dir` order is
unspecified (OS-dependent); the model fixes one representative order
(files in creation order, then subdirectories), so only conclusions that
are insensitive to a permutation of this list, or relative to whatever
order enumeration gives, transfer to the program. -/
def FS.listDir (fs : FS) (dir : List String) : List DirEntry :=
  (fs.files.filterMap fun kv => (childName dir kv.1).map fun x =>
    { fileName := x
      fileType := if memPath (dir ++ [x]) fs.broken then none else some FileType.file }) ++
  (fs.dirs.filterMap fun q => (childName dir q).map fun x =>
    { fileName := x
      fileType := if memPath (dir ++ [x]) fs.broken then none else some FileType.directory })

/-- `tokio::fs::read_dir`, wrapping the open failure as
`Error::ReadDirectory(path)` as in src/project.rs. -/
def readDirectory (s : St) (p : List String) : Except Error (List DirEntry) × St :=
  if s.fs.dirExists p then (.ok (s.fs.listDir p), ⟨s.fs, s.trace ++ [Op.readDir p]⟩)
  else (.error (.ReadDirectory p), ⟨s.fs, s.trace ++ [Op.readDir p]⟩)

/-- Rust `Path` stem/extension split of a file name: the extension is what
follows the last `.`, except that a leading-dot-only name (e.g. `.luau`)
has no extension.  Returns (file name with extension stripped, extension). -/
def extSplit (name : String) : String × Option String :=
  let cs := name.toList
  let rext := cs.reverse.takeWhile fun c => c != '.'
  if rext.length = cs.length then (name, none)
  else if cs.length - rext.length - 1 = 0 then (name, none)
  else (⟨cs.take (cs.length - rext.length - 1)⟩, some ⟨rext.reverse⟩)

/-- `read_configuration` (src/project.rs):
`serde_json::from_str(&read_file("fumosync.json").await?)?`. -/
def read_configuration (s : St) : Except Error Configuration × St :=
  match readFile s ["fumosync.json"] with
  | (.error e, s₁) => (.error e, s₁)
  | (.ok fc, s₁) =>
    match parseConfiguration fc with
    | none => (.error .Deserialize, s₁)
    | some c => (.ok c, s₁)

/-- Static scaffold `.vscode/settings.json` contents (src/project.rs). -/
def settingsJsonText : String :=
  "\x7b\n\t\"luau-lsp.types.robloxSecurityLevel\": \"None\",\n\t\"luau-lsp.types.definitionFiles\": [\"types.d.luau\"]\n\x7d"

/-- Static scaffold `init.server.luau` contents (src/project.rs). -/
def initServerStub : String :=
  "-- you can require packages with requireM(\"path\") where path is a file inside of pkg (no extension)"

/-- Static scaffold `README.md` contents (src/project.rs). -/
def readmeStub : String := "# stuff here"

/-- Static scaffold `types.d.luau` contents (src/project.rs). -/
def typesStub : String :=
  "declare loadstringEnabled: boolean\ndeclare owner: Player\ndeclare arguments: \x7b any \x7d\n\ndeclare isolatedStorage: \x7b\n  get: (name: string) -> any,\n  set: (name: string, value: any?) -> ()\n\x7d\n\ndeclare immediateSignals: boolean\ndeclare NLS: (source: string, parent: Instance?) -> LocalScript\ndeclare requireM: (moduleName: string) -> any\n\ndeclare LoadAssets: (assetId: number) -> \x7b\n  Get: (asset: string) -> Instance,\n  Exists: (asset: string) -> boolean,\n  GetNames: () -> \x7b string \x7d,\n  GetArray: () -> \x7b Instance \x7d,\n  GetDictionary: () -> \x7b [string]: Instance \x7d\n\x7d"

/-- The configuration `init` writes: `script_name` from the directory's
final segment (`"unknown"` fallback), sentinel id `"???"`, empty whitelist,
private (src/project.rs). -/
def initConfiguration (directory : List String) : Configuration :=
  { script_name := directory.getLast?.getD "unknown"
    script_id := "???"
    whitelist := []
    is_public := false }

/-- `init` (src/project.rs): refuse an existing path, then create the root,
`pkg/` and `.vscode/` directories and the five scaffold files in order,
aborting on the first failure.  `serde_json::to_string_pretty` on a
`Configuration` cannot fail, so the configuration write is a plain file
write of its serialized form. -/
def init (directory : List String) (s : St) : Except Error Unit × St :=
  if s.fs.pathExists directory then
    (.error (.DirectoryAlreadyExists directory), s)
  else
    match createDirectory s directory with
    | (.error e, s₁) => (.error e, s₁)
    | (.ok _, s₁) =>
    match createDirectory s₁ (directory ++ ["pkg"]) with
    | (.error e, s₂) => (.error e, s₂)
    | (.ok _, s₂) =>
    match createDirectory s₂ (directory ++ [".vscode"]) with
    | (.error e, s₃) => (.error e, s₃)
    | (.ok _, s₃) =>
    match writeFile s₃ (directory ++ [".vscode", "settings.json"]) (.text settingsJsonText) with
    | (.error e, s₄) => (.error e, s₄)
    | (.ok _, s₄) =>
    match writeFile s₄ (directory ++ ["init.server.luau"]) (.text initServerStub) with
    | (.error e, s₅) => (.error e, s₅)
    | (.ok _, s₅) =>
    match writeFile s₅ (directory ++ ["README.md"]) (.text readmeStub) with
    | (.error e, s₆) => (.error e, s₆)
    | (.ok _, s₆) =>
    match writeFile s₆ (directory ++ ["types.d.luau"]) (.text typesStub) with
    | (.error e, s₇) => (.error e, s₇)
    | (.ok _, s₇) =>
    match writeFile s₇ (directory ++ ["fumosync.json"]) (.config (initConfiguration directory)) with
    | (.error e, s₈) => (.error e, s₈)
    | (.ok _, s₈) => (.ok (), s₈)

/-- Modelled from the spec: the `source` part of the `get_editor` response
(main source plus module-name → source mapping; `client.rs` is not in
`src/`).  The mapping is carried as a list of pairs in iteration order. -/
structure ScriptSource where
  main : String
  modules : List (String × String)
deriving DecidableEq

/-- Modelled from the spec: the `script_info` of the `get_editor` response
(`client.rs` is not in `src/`). -/
structure ScriptInfo where
  name : String
  description : String
  whitelist : List String
  is_public : Bool
  source : ScriptSource
deriving DecidableEq

/-- Split a list of characters at `/`, keeping the groups between the
separators. -/
def splitSlash : List Char → List (List Char)
  | [] => [[]]
  | c :: rest =>
    if c = '/' then [] :: splitSlash rest
    else
      match splitSlash rest with
      | [] => [[c]]
      | g :: gs => (c :: g) :: gs

/-- The path components `PathBuf::join` sees in a file-name string on
Unix: the `/`-separated pieces, empty pieces collapsed. -/
def nameSegments (s : String) : List String :=
  ((splitSlash s.data).map fun cs => String.mk cs).filter fun t => t ≠ ""

/-- Whether the string denotes an absolute path (leading `/`), in which
case `PathBuf::join` discards the base entirely. -/
def isAbsoluteName (s : String) : Bool :=
  match s.data with
  | [] => false
  | c :: _ => c = '/'

/-- Operating-system resolution of a path given as raw components against
the filesystem: `.` is skipped, `..` moves to the parent, and every other
intermediate component must exist as a directory (otherwise the syscall
fails with a not-found error).  The final component is the file name and
is not traversed.  `..` above the model's root (the ambient current
directory) leaves the modelled tree and is treated as a failed
resolution. -/
def FS.resolveFrom (fs : FS) : List String → List String → Option (List String)
  | _, [] => none
  | acc, seg :: rest =>
    match rest with
    | [] => some (acc ++ [seg])
    | _ :: _ =>
      if seg = "." then fs.resolveFrom acc rest
      else if seg = ".." then
        match acc with
        | [] => none
        | _ :: _ => fs.resolveFrom acc.dropLast rest
      else if memPath (acc ++ [seg]) fs.dirs then fs.resolveFrom (acc ++ [seg]) rest
      else none

/-- A module name with no path separator: `pkg/<name>.luau` then denotes a
direct child of `pkg/`. -/
def noSlash (n : String) : Prop := ∀ c ∈ n.data, ¬(c = '/')

/-- One iteration of pull's module loop (src/project.rs lines 149–155):
`write_file(project_directory.join("pkg").join(format!("{name}.luau")), source)`.
`PathBuf::join` splits the fetched name on `/`, and the operating system
then resolves `.` and `..` components against existing directories, so a
name such as `../types.d` writes outside `pkg/`.  A missing intermediate
directory surfaces as the `CreateFile` failure with the requested
(unresolved) path, as does an absolute name, whose target lies outside the
modelled tree (an unprivileged write there fails).  On success the trace
records the file actually touched; on failure, the requested path. -/
def writeModuleFile (dir : List String) (name source : String) (s : St) :
    Except Error Unit × St :=
  if isAbsoluteName (name ++ ".luau") then
    (.error (.CreateFile (nameSegments (name ++ ".luau"))),
     ⟨s.fs, s.trace ++ [Op.writeF (nameSegments (name ++ ".luau"))]⟩)
  else
    match s.fs.resolveFrom [] (dir ++ ["pkg"] ++ nameSegments (name ++ ".luau")) with
    | some q => writeFile s q (.text source)
    | none =>
      (.error (.CreateFile (dir ++ ["pkg"] ++ nameSegments (name ++ ".luau"))),
       ⟨s.fs, s.trace ++ [Op.writeF (dir ++ ["pkg"] ++ nameSegments (name ++ ".luau"))]⟩)

/-- The module-write loop of `pull_project` (src/project.rs): each fetched
module `(name, source)` is written to `dir/pkg/<name>.luau`, the name
passing through path joining and resolution as in `writeModuleFile`. -/
def writeModules (dir : List String) : List (String × String) → St → Except Error Unit × St
  | [], s => (.ok (), s)
  | (name, source) :: rest, s =>
    match writeModuleFile dir name source s with
    | (.error e, s₁) => (.error e, s₁)
    | (.ok _, s₁) => writeModules dir rest s₁

/-- The post-init hydration steps of `pull_project` (src/project.rs):
overwrite `README.md`, `init.server.luau` and `fumosync.json` from the
fetched script info, then write every fetched module. -/
def pullHydrate (scriptId : String) (dir : List String) (info : ScriptInfo) (s : St) :
    Except Error Unit × St :=
  match writeFile s (dir ++ ["README.md"]) (.text info.description) with
  | (.error e, s₁) => (.error e, s₁)
  | (.ok _, s₁) =>
  match writeFile s₁ (dir ++ ["init.server.luau"]) (.text info.source.main) with
  | (.error e, s₂) => (.error e, s₂)
  | (.ok _, s₂) =>
  match writeFile s₂ (dir ++ ["fumosync.json"])
      (.config { script_name := info.name, script_id := scriptId,
                 whitelist := info.whitelist, is_public := info.is_public }) with
  | (.error e, s₃) => (.error e, s₃)
  | (.ok _, s₃) => writeModules dir info.source.modules s₃

/-- `pull_project` (src/project.rs): acquire session secrets and build the
client, run `init` (wrapping its failure as `ProjectDidntInitialize`),
fetch the editor state, then hydrate the local files.  The outcomes of the
two external calls are passed as parameters (`Error.Network` wraps their
opaque failures). -/
def pull_project (scriptId : String) (dir : List String)
    (secrets : Except Nat Unit) (editor : Except Nat ScriptInfo) (s : St) :
    Except Error Unit × St :=
  match secrets with
  | .error code => (.error (.Network code), ⟨s.fs, s.trace ++ [Op.getSessionSecrets]⟩)
  | .ok _ =>
    match init dir ⟨s.fs, s.trace ++ [Op.getSessionSecrets]⟩ with
    | (.error e, s₁) => (.error (.ProjectDidntInitialize e), s₁)
    | (.ok _, s₁) =>
      match editor with
      | .error code => (.error (.Network code), ⟨s₁.fs, s₁.trace ++ [Op.getEditor scriptId]⟩)
      | .ok info => pullHydrate scriptId dir info ⟨s₁.fs, s₁.trace ++ [Op.getEditor scriptId]⟩

/-- The module-discovery loop of `push_project` (src/project.rs): walk the
directory entries; skip entries whose `file_type` lookup failed (logging
only); keep regular files whose extension is exactly `luau`, reading each
one's content (a read failure aborts); the module name is the file name
with the extension stripped. -/
def discoverModules (s : St) : List DirEntry → Except Error (List (String × String)) × St
  | [] => (.ok [], s)
  | e :: rest =>
    match e.fileType with
    | none => discoverModules s rest
    | some ft =>
      if ft = FileType.file ∧ (extSplit e.fileName).2.getD "" = "luau" then
        match readFile s ["pkg", e.fileName] with
        | (.error err, s₁) => (.error err, s₁)
        | (.ok c, s₁) =>
          match discoverModules s₁ rest with
          | (.error err, s₂) => (.error err, s₂)
          | (.ok mods, s₂) => (.ok (((extSplit e.fileName).1, c.asText) :: mods), s₂)
      else discoverModules s rest

/-- The action sequence `push_project` assembles (src/project.rs lines
174–213): the five metadata/content actions in order, then one `Module`
action per discovered module in discovery order. -/
def pushActions (configuration : Configuration) (description mainSource : FileContent)
    (mods : List (String × String)) : List EditorUpdate :=
  [.Name configuration.script_name,
   .Whitelist configuration.whitelist,
   .Publicity configuration.is_public,
   .Description description.asText,
   .MainSource mainSource.asText] ++
  mods.map fun m => .Module m.1 m.2

/-- `push_project` (src/project.rs): read the configuration, `README.md`
and `init.server.luau`; enumerate `pkg/` and discover modules; assemble the
action sequence; only then acquire session secrets and submit everything
through `set_editor`.  The outcomes of the two external calls are passed as
parameters. -/
def push_project (secrets : Except Nat Unit) (setEditorResult : Except Nat Unit) (s : St) :
    Except Error Unit × St :=
  match read_configuration s with
  | (.error e, s₁) => (.error e, s₁)
  | (.ok configuration, s₁) =>
  match readFile s₁ ["README.md"] with
  | (.error e, s₂) => (.error e, s₂)
  | (.ok description, s₂) =>
  match readFile s₂ ["init.server.luau"] with
  | (.error e, s₃) => (.error e, s₃)
  | (.ok mainSource, s₃) =>
  match readDirectory s₃ ["pkg"] with
  | (.error e, s₄) => (.error e, s₄)
  | (.ok entries, s₄) =>
  match discoverModules s₄ entries with
  | (.error e, s₅) => (.error e, s₅)
  | (.ok mods, s₅) =>
    match secrets with
    | .error code => (.error (.Network code), ⟨s₅.fs, s₅.trace ++ [Op.getSessionSecrets]⟩)
    | .ok _ =>
      match setEditorResult with
      | .error code =>
        (.error (.Network code),
         ⟨s₅.fs, s₅.trace ++ [Op.getSessionSecrets,
            Op.setEditor configuration.script_id
              (pushActions configuration description mainSource mods)]⟩)
      | .ok _ =>
        (.ok (),
         ⟨s₅.fs, s₅.trace ++ [Op.getSessionSecrets,
            Op.setEditor configuration.script_id
              (pushActions configuration description mainSource mods)]⟩)

/-- `q` relative to the directory `dir` (a strict descendant), if it is one. -/
def relTo : List String → List String → Option (List String)
  | [], p => if p.isEmpty then none else some p
  | d :: ds, q :: ps => if d = q then relTo ds ps else none
  | _ :: _, [] => none

/-- The filesystem as seen with current directory `dir`: every path is
re-rooted below `dir`; entries outside `dir` disappear. -/
def FS.chroot (fs : FS) (dir : List String) : FS :=
  { files := fs.files.filterMap fun kv => (relTo dir kv.1).map fun p => (p, kv.2)
    dirs := fs.dirs.filterMap (relTo dir)
    broken := fs.broken.filterMap (relTo dir) }

/-- The last `set_editor` submission recorded in the trace, if any. -/
def lastSetEditor (s : St) : Option (String × List EditorUpdate) :=
  s.trace.reverse.findSome? fun op =>
    match op with
    | .setEditor i a => some (i, a)
    | _ => none

/-- The `(name, source)` payloads of the `Module` actions of a sequence. -/
def modulePairs : List EditorUpdate → List (String × String)
  | [] => []
  | .Module n src :: rest => (n, src) :: modulePairs rest
  | _ :: rest => modulePairs rest

/-- Whether an operation is a network interaction. -/
def isNetworkOp : Op → Bool
  | .getSessionSecrets => true
  | .getEditor _ => true
  | .setEditor _ _ => true
  | _ => false

/-- The empty filesystem. -/
def FS.empty : FS := { files := [], dirs := [], broken := [] }

/-! ### Characterization lemmas for the primitive operations -/

theorem writeFile_trace (s : St) (p : List String) (c : FileContent) :
    ((writeFile s p c).2).trace = s.trace ++ [Op.writeF p] := by
  unfold writeFile
  split <;> rfl

theorem writeFile_dirs (s : St) (p : List String) (c : FileContent) :
    ((writeFile s p c).2).fs.dirs = s.fs.dirs := by
  unfold writeFile
  split <;> rfl

theorem writeFile_broken (s : St) (p : List String) (c : FileContent) :
    ((writeFile s p c).2).fs.broken = s.fs.broken := by
  unfold writeFile
  split <;> rfl

theorem writeFile_ok (s : St) (p : List String) (c : FileContent) (s₁ : St)
    (h : writeFile s p c = (.ok (), s₁)) :
    s₁.fs.files = setFile s.fs.files p c ∧ s₁.fs.dirs = s.fs.dirs ∧
      s₁.fs.broken = s.fs.broken ∧ s₁.trace = s.trace ++ [Op.writeF p] := by
  unfold writeFile at h
  split at h
  · cases h
    exact ⟨rfl, rfl, rfl, rfl⟩
  · cases h

theorem createDirectory_trace (s : St) (p : List String) :
    ((createDirectory s p).2).trace = s.trace ++ [Op.mkDir p] := by
  unfold createDirectory
  split <;> rfl

theorem createDirectory_ok (s : St) (p : List String) (s₁ : St)
    (h : createDirectory s p = (.ok (), s₁)) :
    s₁.fs.files = s.fs.files ∧ s₁.fs.dirs = s.fs.dirs ++ [p] ∧
      s₁.fs.broken = s.fs.broken ∧ s₁.trace = s.trace ++ [Op.mkDir p] := by
  unfold createDirectory at h
  split at h
  · cases h
    exact ⟨rfl, rfl, rfl, rfl⟩
  · cases h

theorem readFile_eq (s : St) (p : List String) :
    readFile s p =
      ((match lookupFile s.fs.files p with
        | some c => .ok c
        | none => .error (.ReadFile p)),
       { s with trace := s.trace ++ [Op.readF p] }) := by
  unfold readFile
  rcases h : lookupFile s.fs.files p with _ | c <;> simp [h]

theorem readFile_fs (s : St) (p : List String) : ((readFile s p).2).fs = s.fs := by
  rw [readFile_eq]

theorem readFile_trace (s : St) (p : List String) :
    ((readFile s p).2).trace = s.trace ++ [Op.readF p] := by
  rw [readFile_eq]

theorem readDirectory_eq (s : St) (p : List String) :
    readDirectory s p =
      ((if s.fs.dirExists p then .ok (s.fs.listDir p) else .error (.ReadDirectory p)),
       { s with trace := s.trace ++ [Op.readDir p] }) := by
  unfold readDirectory
  split <;> simp_all

theorem read_configuration_eq (s : St) :
    read_configuration s =
      ((match lookupFile s.fs.files ["fumosync.json"] with
        | none => .error (.ReadFile ["fumosync.json"])
        | some fc =>
          match parseConfiguration fc with
          | none => .error .Deserialize
          | some c => .ok c),
       { s with trace := s.trace ++ [Op.readF ["fumosync.json"]] }) := by
  unfold read_configuration
  rw [readFile_eq]
  rcases h : lookupFile s.fs.files ["fumosync.json"] with _ | fc
  · simp
  · rcases hp : parseConfiguration fc with _ | c <;> simp [hp]

theorem discoverModules_fs (s : St) (es : List DirEntry) :
    ((discoverModules s es).2).fs = s.fs := by
  induction es generalizing s with
  | nil => rfl
  | cons e rest ih =>
    unfold discoverModules
    rcases e.fileType with _ | ft
    · exact ih s
    · by_cases hl : ft = FileType.file ∧ (extSplit e.fileName).2.getD "" = "luau"
      · simp only [hl, if_pos]
        rw [readFile_eq]
        rcases h : lookupFile s.fs.files ["pkg", e.fileName] with _ | c
        · rfl
        · rcases hrec : discoverModules { s with trace := s.trace ++ [Op.readF ["pkg", e.fileName]] } rest
            with ⟨res, s₂⟩
          have := ih { s with trace := s.trace ++ [Op.readF ["pkg", e.fileName]] }
          rw [hrec] at this
          rcases res with err | mods <;> simpa [hrec] using this
      · simp only [hl, if_neg, if_false]
        exact ih s

theorem discoverModules_trace (s : St) (es : List DirEntry) :
    ∃ d, ((discoverModules s es).2).trace = s.trace ++ d ∧
      ∀ op ∈ d, ∃ x, op = Op.readF ["pkg", x] := by
  induction es generalizing s with
  | nil => exact ⟨[], by simp [discoverModules], by simp⟩
  | cons e rest ih =>
    unfold discoverModules
    rcases e.fileType with _ | ft
    · exact ih s
    · by_cases hl : ft = FileType.file ∧ (extSplit e.fileName).2.getD "" = "luau"
      · simp only [hl, if_pos]
        rw [readFile_eq]
        rcases h : lookupFile s.fs.files ["pkg", e.fileName] with _ | c
        · exact ⟨[Op.readF ["pkg", e.fileName]], rfl, by simp⟩
        · rcases hrec : discoverModules { s with trace := s.trace ++ [Op.readF ["pkg", e.fileName]] } rest
            with ⟨res, s₂⟩
          obtain ⟨d, hd, hall⟩ := ih { s with trace := s.trace ++ [Op.readF ["pkg", e.fileName]] }
          rw [hrec] at hd
          refine ⟨Op.readF ["pkg", e.fileName] :: d, ?_, ?_⟩
          · rcases res with err | mods <;> simp [hrec] <;> simpa using hd
          · intro op hop
            rcases List.mem_cons.mp hop with h₁ | h₂
            · exact ⟨e.fileName, by rw [h₁]⟩
            · exact hall op h₂
      · simp only [hl, if_neg, if_false]
        exact ih s

/-! ### Helper lemmas on the filesystem representation -/

theorem memPath_append (p : List String) (l₁ l₂ : List (List String)) :
    memPath p (l₁ ++ l₂) = (memPath p l₁ || memPath p l₂) := by
  induction l₁ with
  | nil => simp [memPath]
  | cons q rest ih =>
    by_cases h : p = q <;> simp [memPath, h, ih]

theorem memPath_singleton_self (p : List String) : memPath p [p] = true := by
  simp [memPath]

theorem lookupFile_append_left (l₁ l₂ : List (List String × FileContent)) (p : List String)
    (h : lookupFile l₁ p = none) :
    lookupFile (l₁ ++ l₂) p = lookupFile l₂ p := by
  induction l₁ with
  | nil => simp
  | cons kv rest ih =>
    simp only [lookupFile] at h
    simp only [List.cons_append, lookupFile]
    by_cases hk : kv.1 = p
    · simp [hk] at h
    · rw [if_neg hk] at h ⊢
      exact ih h

theorem lookupFile_setFile_self (l : List (List String × FileContent)) (p : List String)
    (c : FileContent) : lookupFile (setFile l p c) p = some c := by
  induction l with
  | nil => simp [setFile, lookupFile]
  | cons kv rest ih =>
    unfold setFile
    by_cases hk : kv.1 = p
    · simp [hk, lookupFile]
    · simp only [hk, if_neg, if_false]
      unfold lookupFile
      simp only [hk, if_neg, if_false]
      exact ih

theorem lookupFile_setFile_ne (l : List (List String × FileContent)) (p q : List String)
    (c : FileContent) (h : q ≠ p) :
    lookupFile (setFile l p c) q = lookupFile l q := by
  have hpq : ¬(p = q) := fun hh => h hh.symm
  induction l with
  | nil =>
    simp only [setFile, lookupFile]
    rw [if_neg hpq]
  | cons kv rest ih =>
    simp only [setFile]
    by_cases hk : kv.1 = p
    · rw [if_pos hk]
      simp only [lookupFile]
      rw [if_neg hpq, if_neg (show ¬(kv.1 = q) by rw [hk]; exact hpq)]
    · rw [if_neg hk]
      simp only [lookupFile]
      by_cases hq : kv.1 = q
      · rw [if_pos hq, if_pos hq]
      · rw [if_neg hq, if_neg hq]
        exact ih

theorem setFile_fresh (l : List (List String × FileContent)) (p : List String) (c : FileContent)
    (h : lookupFile l p = none) : setFile l p c = l ++ [(p, c)] := by
  induction l with
  | nil => simp [setFile]
  | cons kv rest ih =>
    unfold lookupFile at h
    unfold setFile
    by_cases hk : kv.1 = p
    · simp [hk] at h
    · simp only [hk, if_neg, if_false] at h ⊢
      simp [ih h]

/-! ### String and extension lemmas -/

theorem string_append_right_cancel (a b s : String) (h : a ++ s = b ++ s) : a = b := by
  have hd : a.data ++ s.data = b.data ++ s.data := by
    have h₁ := congrArg String.data h
    simpa [String.data_append] using h₁
  exact congrArg String.mk (List.append_cancel_right hd)

theorem extSplit_luau (n : String) (h : n ≠ "") :
    extSplit (n ++ ".luau") = (n, some "luau") := by
  have hnn : n.data ≠ [] := by
    intro hc
    apply h
    cases n with
    | mk d =>
      simp at hc
      subst hc
      decide
  have hlen : 0 < n.data.length := List.length_pos.mpr hnn
  have hdata : (n ++ ".luau").toList = n.data ++ ['.', 'l', 'u', 'a', 'u'] := by
    simp only [String.toList, String.data_append]
  have hrev : (n.data ++ ['.', 'l', 'u', 'a', 'u']).reverse =
      ['u', 'a', 'u', 'l', '.'] ++ n.data.reverse := by
    simp
  have htake : ((['u', 'a', 'u', 'l', '.'] ++ n.data.reverse).takeWhile fun c => c != '.') =
      ['u', 'a', 'u', 'l'] := by
    simp [List.takeWhile]
  have hL : (n.data ++ ['.', 'l', 'u', 'a', 'u']).length = n.data.length + 5 := by
    simp
  have hlen4 : ([('u' : Char), 'a', 'u', 'l']).length = 4 := rfl
  simp only [extSplit, hdata, hrev, htake]
  have hlen₁ : ¬(([('u' : Char), 'a', 'u', 'l']).length =
      (n.data ++ ['.', 'l', 'u', 'a', 'u']).length) := by
    rw [hL, hlen4]
    omega
  rw [if_neg hlen₁]
  have hlen₂ : ¬((n.data ++ ['.', 'l', 'u', 'a', 'u']).length -
      ([('u' : Char), 'a', 'u', 'l']).length - 1 = 0) := by
    rw [hL, hlen4]
    omega
  rw [if_neg hlen₂]
  have hstem : (n.data ++ ['.', 'l', 'u', 'a', 'u']).length -
      ([('u' : Char), 'a', 'u', 'l']).length - 1 = n.data.length := by
    rw [hL, hlen4]
    omega
  rw [hstem]
  rw [List.take_left]
  rw [show String.mk n.data = n from rfl]
  rw [show (['u', 'a', 'u', 'l'].reverse : List Char) = ['l', 'u', 'a', 'u'] from rfl]

theorem lookupFile_none_of (l : List (List String × FileContent)) (q : List String)
    (h : ∀ kv ∈ l, kv.1 ≠ q) : lookupFile l q = none := by
  induction l with
  | nil => rfl
  | cons kv rest ih =>
    simp only [lookupFile]
    rw [if_neg (h kv (by simp))]
    exact ih fun kv' hm => h kv' (by simp [hm])

theorem lookupFile_assoc_map (k : String → List String) (hk : Function.Injective k)
    (ms : List (String × String)) (m : String × String) (hmem : m ∈ ms)
    (hnd : (ms.map Prod.fst).Nodup) :
    lookupFile (ms.map fun x => (k x.1, FileContent.text x.2)) (k m.1) =
      some (.text m.2) := by
  induction ms with
  | nil => cases hmem
  | cons x rest ih =>
    simp only [List.map_cons, lookupFile]
    rcases List.mem_cons.mp hmem with rfl | hmem'
    · rw [if_pos rfl]
    · by_cases he : x.1 = m.1
      · exfalso
        have hx : x.1 ∉ rest.map Prod.fst := (List.nodup_cons.mp hnd).1
        exact hx (he ▸ List.mem_map_of_mem Prod.fst hmem')
      · rw [if_neg fun hc => he (hk hc)]
        exact ih hmem' (List.nodup_cons.mp hnd).2

theorem writeFile_ok_eq (s : St) (p : List String) (c : FileContent)
    (h1 : p.isEmpty = false) (h2 : FS.dirExists s.fs p.dropLast = true)
    (h3 : memPath p s.fs.dirs = false) :
    writeFile s p c =
      (.ok (), ⟨⟨setFile s.fs.files p c, s.fs.dirs, s.fs.broken⟩,
                s.trace ++ [Op.writeF p]⟩) := by
  unfold writeFile
  simp [h1, h2, h3]

theorem discoverModules_ok_of (fs : FS) (tr : List Op) (ms : List (String × String))
    (h : ∀ m ∈ ms, m.1 ≠ "" ∧
      lookupFile fs.files ["pkg", m.1 ++ ".luau"] = some (.text m.2)) :
    discoverModules ⟨fs, tr⟩ (ms.map fun m => ⟨m.1 ++ ".luau", some FileType.file⟩) =
      (.ok ms, ⟨fs, tr ++ ms.map fun m => Op.readF ["pkg", m.1 ++ ".luau"]⟩) := by
  induction ms generalizing tr with
  | nil => simp [discoverModules]
  | cons m rest ih =>
    obtain ⟨hne, hl⟩ := h m (by simp)
    simp only [List.map_cons]
    unfold discoverModules
    simp only
    split
    · rw [readFile_eq]
      simp only [hl]
      rw [ih (tr ++ [Op.readF ["pkg", m.1 ++ ".luau"]])
        (fun m' hm' => h m' (by simp [hm']))]
      rw [extSplit_luau m.1 hne]
      simp [FileContent.asText]
    · rename_i hcond
      rw [extSplit_luau m.1 hne] at hcond
      simp at hcond

theorem splitSlash_no_slash (cs : List Char) (h : ∀ c ∈ cs, ¬(c = '/')) :
    splitSlash cs = [cs] := by
  induction cs with
  | nil => rfl
  | cons c rest ih =>
    unfold splitSlash
    rw [if_neg (h c (by simp))]
    rw [ih fun c' hc' => h c' (by simp [hc'])]

theorem nameSegments_plain (s : String) (h : ∀ c ∈ s.data, ¬(c = '/'))
    (hne : s ≠ "") : nameSegments s = [s] := by
  unfold nameSegments
  rw [splitSlash_no_slash s.data h]
  simp only [List.map_cons, List.map_nil]
  rw [show String.mk s.data = s from rfl]
  simp [List.filter, hne]

theorem append_luau_ne_empty (n : String) : n ++ ".luau" ≠ "" := by
  intro hc
  have hd := congrArg String.data hc
  rw [String.data_append] at hd
  simp at hd

theorem noSlash_append_luau (n : String) (h : noSlash n) :
    ∀ c ∈ (n ++ ".luau").data, ¬(c = '/') := by
  intro c hc
  rw [String.data_append] at hc
  rcases List.mem_append.mp hc with h₁ | h₂
  · exact h c h₁
  · simp at h₂
    rcases h₂ with rfl | rfl | rfl | rfl | rfl <;> decide

theorem isAbsoluteName_plain (s : String) (h : ∀ c ∈ s.data, ¬(c = '/')) :
    isAbsoluteName s = false := by
  unfold isAbsoluteName
  cases hd : s.data with
  | nil => rfl
  | cons c rest =>
    have := h c (by rw [hd]; exact List.mem_cons_self c rest)
    simp [this]

theorem resolveFrom_clean (fs : FS) : ∀ (p acc q : List String),
    (∀ seg ∈ p.dropLast, ¬(seg = ".") ∧ ¬(seg = "..")) →
    fs.resolveFrom acc p = some q → q = acc ++ p := by
  intro p
  induction p with
  | nil =>
    intro acc q hp h
    cases h
  | cons seg rest ih =>
    intro acc q hp h
    unfold FS.resolveFrom at h
    cases hr : rest with
    | nil =>
      subst hr
      simp at h
      rw [← h]
    | cons r2 rrest =>
      subst hr
      have hseg : ¬(seg = ".") ∧ ¬(seg = "..") := hp seg (by simp [List.dropLast])
      simp only at h
      rw [if_neg hseg.1, if_neg hseg.2] at h
      split at h
      · have hq := ih (acc ++ [seg]) q
          (fun seg' hs' => hp seg' (by simp [List.dropLast] at hs' ⊢; exact Or.inr hs')) h
        rw [hq]
        simp
      · cases h

theorem resolveFrom_demo_pkg (fs : FS) (x : String)
    (h1 : memPath ["demo"] fs.dirs = true) (h2 : memPath ["demo", "pkg"] fs.dirs = true) :
    fs.resolveFrom [] ["demo", "pkg", x] = some ["demo", "pkg", x] := by
  unfold FS.resolveFrom
  simp [h1, h2, FS.resolveFrom]

theorem writeModuleFile_plain (name source : String) (s : St) (hns : noSlash name)
    (h1 : memPath ["demo"] s.fs.dirs = true) (h2 : memPath ["demo", "pkg"] s.fs.dirs = true) :
    writeModuleFile ["demo"] name source s =
      writeFile s ["demo", "pkg", name ++ ".luau"] (.text source) := by
  unfold writeModuleFile
  rw [isAbsoluteName_plain _ (noSlash_append_luau name hns)]
  rw [nameSegments_plain _ (noSlash_append_luau name hns) (append_luau_ne_empty name)]
  simp only [Bool.false_eq_true, if_false, List.cons_append, List.nil_append]
  rw [resolveFrom_demo_pkg s.fs _ h1 h2]

theorem writeModuleFile_trace (dir : List String) (name source : String) (s : St)
    (hclean : ∀ seg ∈ dir, ¬(seg = ".") ∧ ¬(seg = ".."))
    (hns : noSlash name) :
    ((writeModuleFile dir name source s).2).trace =
      s.trace ++ [Op.writeF (dir ++ ["pkg", name ++ ".luau"])] := by
  unfold writeModuleFile
  rw [isAbsoluteName_plain _ (noSlash_append_luau name hns)]
  rw [nameSegments_plain _ (noSlash_append_luau name hns) (append_luau_ne_empty name)]
  simp only [Bool.false_eq_true, if_false]
  split
  · rename_i q hq
    have hcl : ∀ seg ∈ (dir ++ ["pkg"] ++ [name ++ ".luau"]).dropLast,
        ¬(seg = ".") ∧ ¬(seg = "..") := by
      intro seg hseg
      rw [show (dir ++ ["pkg"] ++ [name ++ ".luau"]).dropLast = dir ++ ["pkg"] from by simp]
        at hseg
      rcases List.mem_append.mp hseg with h₁ | h₂
      · exact hclean seg h₁
      · simp at h₂
        subst h₂
        exact ⟨by decide, by decide⟩
    have hq' := resolveFrom_clean s.fs (dir ++ ["pkg"] ++ [name ++ ".luau"]) [] q hcl hq
    subst hq'
    rw [writeFile_trace]
    simp
  · simp

theorem writeModules_ok_of (ms : List (String × String)) (s : St)
    (hdemo : memPath ["demo"] s.fs.dirs = true)
    (hdir : memPath ["demo", "pkg"] s.fs.dirs = true)
    (hplain : ∀ m ∈ ms, noSlash m.1)
    (hnopath : ∀ m ∈ ms, memPath ["demo", "pkg", m.1 ++ ".luau"] s.fs.dirs = false)
    (hfresh : ∀ m ∈ ms, lookupFile s.fs.files ["demo", "pkg", m.1 ++ ".luau"] = none)
    (hnd : (ms.map Prod.fst).Nodup) :
    writeModules ["demo"] ms s =
      (.ok (), ⟨⟨s.fs.files ++
          ms.map fun m => (["demo", "pkg", m.1 ++ ".luau"], FileContent.text m.2),
        s.fs.dirs, s.fs.broken⟩,
        s.trace ++ ms.map fun m => Op.writeF ["demo", "pkg", m.1 ++ ".luau"]⟩) := by
  induction ms generalizing s with
  | nil => simp [writeModules]
  | cons m rest ih =>
    rcases m with ⟨n, src⟩
    simp only [writeModules, List.cons_append, List.nil_append]
    rw [writeModuleFile_plain n src s (hplain (n, src) (by simp)) hdemo hdir]
    rw [writeFile_ok_eq s ["demo", "pkg", n ++ ".luau"] (.text src) rfl
      (by simp [FS.dirExists, hdir]) (hnopath (n, src) (by simp))]
    rw [setFile_fresh _ _ _ (hfresh (n, src) (by simp))]
    dsimp only
    rw [ih ⟨⟨s.fs.files ++ [(["demo", "pkg", n ++ ".luau"], FileContent.text src)],
        s.fs.dirs, s.fs.broken⟩, s.trace ++ [Op.writeF ["demo", "pkg", n ++ ".luau"]]⟩
      hdemo hdir
      (fun m' hm' => hplain m' (by simp [hm']))
      (fun m' hm' => hnopath m' (by simp [hm']))
      ?_ (List.nodup_cons.mp hnd).2]
    · simp
    · intro m' hm'
      rw [lookupFile_append_left _ _ _ (hfresh m' (by simp [hm']))]
      apply lookupFile_none_of
      intro kv hkv
      simp only [List.mem_singleton] at hkv
      subst hkv
      intro hc
      have hn : n = m'.1 := by
        have h2 := (List.cons.injEq _ _ _ _).mp hc
        have h3 := (List.cons.injEq _ _ _ _).mp h2.2
        have h4 := (List.cons.injEq _ _ _ _).mp h3.2
        exact string_append_right_cancel _ _ _ h4.1
      have hx : n ∉ rest.map Prod.fst := by
        have := (List.nodup_cons.mp hnd).1
        simpa using this
      exact hx (hn ▸ List.mem_map_of_mem Prod.fst hm')

theorem snd_of_pair_eq {α β : Type} {x : α × β} {r : α} {s' : β} (h : x = (r, s')) :
    x.2 = s' := by
  rw [h]

theorem trace_of_createDirectory {s : St} {p : List String} {r : Except Error Unit} {s' : St}
    (h : createDirectory s p = (r, s')) : s'.trace = s.trace ++ [Op.mkDir p] := by
  rw [← snd_of_pair_eq h]
  exact createDirectory_trace s p

theorem trace_of_writeFile {s : St} {p : List String} {c : FileContent}
    {r : Except Error Unit} {s' : St} (h : writeFile s p c = (r, s')) :
    s'.trace = s.trace ++ [Op.writeF p] := by
  rw [← snd_of_pair_eq h]
  exact writeFile_trace s p c

/-- Full characterization of a successful `init`: the three directories are
appended in creation order, the five scaffold files are written in order,
and nothing else changes. -/
theorem init_ok_spec (dir : List String) (s s₁ : St) (h : init dir s = (.ok (), s₁)) :
    s₁.fs.dirs = s.fs.dirs ++ [dir, dir ++ ["pkg"], dir ++ [".vscode"]] ∧
    s₁.fs.files =
      setFile (setFile (setFile (setFile (setFile s.fs.files
        (dir ++ [".vscode", "settings.json"]) (.text settingsJsonText))
        (dir ++ ["init.server.luau"]) (.text initServerStub))
        (dir ++ ["README.md"]) (.text readmeStub))
        (dir ++ ["types.d.luau"]) (.text typesStub))
        (dir ++ ["fumosync.json"]) (.config (initConfiguration dir)) ∧
    s₁.fs.broken = s.fs.broken := by
  unfold init at h
  split at h
  · cases h
  · split at h
    · cases h
    · rename_i hex a₁ s₁' heq₁
      split at h
      · cases h
      · rename_i a₂ s₂' heq₂
        split at h
        · cases h
        · rename_i a₃ s₃' heq₃
          split at h
          · cases h
          · rename_i a₄ s₄' heq₄
            split at h
            · cases h
            · rename_i a₅ s₅' heq₅
              split at h
              · cases h
              · rename_i a₆ s₆' heq₆
                split at h
                · cases h
                · rename_i a₇ s₇' heq₇
                  split at h
                  · cases h
                  · rename_i a₈ s₈' heq₈
                    cases h
                    obtain ⟨f₁, d₁, b₁, _⟩ := createDirectory_ok _ _ _ heq₁
                    obtain ⟨f₂, d₂, b₂, _⟩ := createDirectory_ok _ _ _ heq₂
                    obtain ⟨f₃, d₃, b₃, _⟩ := createDirectory_ok _ _ _ heq₃
                    obtain ⟨f₄, d₄, b₄, _⟩ := writeFile_ok _ _ _ _ heq₄
                    obtain ⟨f₅, d₅, b₅, _⟩ := writeFile_ok _ _ _ _ heq₅
                    obtain ⟨f₆, d₆, b₆, _⟩ := writeFile_ok _ _ _ _ heq₆
                    obtain ⟨f₇, d₇, b₇, _⟩ := writeFile_ok _ _ _ _ heq₇
                    obtain ⟨f₈, d₈, b₈, _⟩ := writeFile_ok _ _ _ _ heq₈
                    refine ⟨?_, ?_, ?_⟩
                    · rw [d₈, d₇, d₆, d₅, d₄, d₃, d₂, d₁]
                      simp
                    · rw [f₈, f₇, f₆, f₅, f₄, f₃, f₂, f₁]
                    · rw [b₈, b₇, b₆, b₅, b₄, b₃, b₂, b₁]

/-- Whatever the outcome, `init` only attempts local (non-network)
operations. -/
theorem init_trace_ops (dir : List String) (s : St) (r : Except Error Unit) (s₁ : St)
    (h : init dir s = (r, s₁)) :
    ∃ d, s₁.trace = s.trace ++ d ∧ ∀ op ∈ d, isNetworkOp op = false := by
  unfold init at h
  split at h
  · cases h
    exact ⟨[], by simp, by simp⟩
  · split at h
    · rename_i e₁ s₁' heq₁
      cases h
      exact ⟨[Op.mkDir dir], trace_of_createDirectory heq₁, by simp [isNetworkOp]⟩
    · rename_i hex a₁ s₁' heq₁
      have t₁ := trace_of_createDirectory heq₁
      split at h
      · rename_i e₂ s₂' heq₂
        cases h
        refine ⟨[Op.mkDir dir, Op.mkDir (dir ++ ["pkg"])], ?_, by simp [isNetworkOp]⟩
        rw [trace_of_createDirectory heq₂, t₁]
        simp
      · rename_i a₂ s₂' heq₂
        have t₂ := trace_of_createDirectory heq₂
        split at h
        · rename_i e₃ s₃' heq₃
          cases h
          refine ⟨[Op.mkDir dir, Op.mkDir (dir ++ ["pkg"]), Op.mkDir (dir ++ [".vscode"])],
            ?_, by simp [isNetworkOp]⟩
          rw [trace_of_createDirectory heq₃, t₂, t₁]
          simp
        · rename_i a₃ s₃' heq₃
          have t₃ := trace_of_createDirectory heq₃
          split at h
          · rename_i e₄ s₄' heq₄
            cases h
            refine ⟨[Op.mkDir dir, Op.mkDir (dir ++ ["pkg"]), Op.mkDir (dir ++ [".vscode"]),
              Op.writeF (dir ++ [".vscode", "settings.json"])], ?_, by simp [isNetworkOp]⟩
            rw [trace_of_writeFile heq₄, t₃, t₂, t₁]
            simp
          · rename_i a₄ s₄' heq₄
            have t₄ := trace_of_writeFile heq₄
            split at h
            · rename_i e₅ s₅' heq₅
              cases h
              refine ⟨[Op.mkDir dir, Op.mkDir (dir ++ ["pkg"]), Op.mkDir (dir ++ [".vscode"]),
                Op.writeF (dir ++ [".vscode", "settings.json"]),
                Op.writeF (dir ++ ["init.server.luau"])], ?_, by simp [isNetworkOp]⟩
              rw [trace_of_writeFile heq₅, t₄, t₃, t₂, t₁]
              simp
            · rename_i a₅ s₅' heq₅
              have t₅ := trace_of_writeFile heq₅
              split at h
              · rename_i e₆ s₆' heq₆
                cases h
                refine ⟨[Op.mkDir dir, Op.mkDir (dir ++ ["pkg"]), Op.mkDir (dir ++ [".vscode"]),
                  Op.writeF (dir ++ [".vscode", "settings.json"]),
                  Op.writeF (dir ++ ["init.server.luau"]),
                  Op.writeF (dir ++ ["README.md"])], ?_, by simp [isNetworkOp]⟩
                rw [trace_of_writeFile heq₆, t₅, t₄, t₃, t₂, t₁]
                simp
              · rename_i a₆ s₆' heq₆
                have t₆ := trace_of_writeFile heq₆
                split at h
                · rename_i e₇ s₇' heq₇
                  cases h
                  refine ⟨[Op.mkDir dir, Op.mkDir (dir ++ ["pkg"]), Op.mkDir (dir ++ [".vscode"]),
                    Op.writeF (dir ++ [".vscode", "settings.json"]),
                    Op.writeF (dir ++ ["init.server.luau"]),
                    Op.writeF (dir ++ ["README.md"]),
                    Op.writeF (dir ++ ["types.d.luau"])], ?_, by simp [isNetworkOp]⟩
                  rw [trace_of_writeFile heq₇, t₆, t₅, t₄, t₃, t₂, t₁]
                  simp
                · rename_i a₇ s₇' heq₇
                  have t₇ := trace_of_writeFile heq₇
                  split at h
                  · rename_i e₈ s₈' heq₈
                    cases h
                    refine ⟨[Op.mkDir dir, Op.mkDir (dir ++ ["pkg"]), Op.mkDir (dir ++ [".vscode"]),
                      Op.writeF (dir ++ [".vscode", "settings.json"]),
                      Op.writeF (dir ++ ["init.server.luau"]),
                      Op.writeF (dir ++ ["README.md"]),
                      Op.writeF (dir ++ ["types.d.luau"]),
                      Op.writeF (dir ++ ["fumosync.json"])], ?_, by simp [isNetworkOp]⟩
                    rw [trace_of_writeFile heq₈, t₇, t₆, t₅, t₄, t₃, t₂, t₁]
                    simp
                  · rename_i a₈ s₈' heq₈
                    cases h
                    refine ⟨[Op.mkDir dir, Op.mkDir (dir ++ ["pkg"]), Op.mkDir (dir ++ [".vscode"]),
                      Op.writeF (dir ++ [".vscode", "settings.json"]),
                      Op.writeF (dir ++ ["init.server.luau"]),
                      Op.writeF (dir ++ ["README.md"]),
                      Op.writeF (dir ++ ["types.d.luau"]),
                      Op.writeF (dir ++ ["fumosync.json"])], ?_, by simp [isNetworkOp]⟩
                    rw [trace_of_writeFile heq₈, t₇, t₆, t₅, t₄, t₃, t₂, t₁]
                    simp

theorem fst_of_pair_eq {α β : Type} {x : α × β} {r : α} {s' : β} (h : x = (r, s')) :
    x.1 = r := by
  rw [h]

/-- The result of module discovery depends only on the filesystem and the
entry list, not on the trace accumulated so far. -/
theorem discoverModules_fst (fs : FS) (tr : List Op) (es : List DirEntry) :
    (discoverModules ⟨fs, tr⟩ es).1 = (discoverModules ⟨fs, []⟩ es).1 := by
  induction es generalizing tr with
  | nil => rfl
  | cons e rest ih =>
    unfold discoverModules
    rcases e.fileType with _ | ft
    · exact ih tr
    · by_cases hl : ft = FileType.file ∧ (extSplit e.fileName).2.getD "" = "luau"
      · simp only [hl, if_pos]
        rw [readFile_eq, readFile_eq]
        rcases h : lookupFile fs.files ["pkg", e.fileName] with _ | c
        · simp [h]
        · simp only [h]
          rcases hrec : discoverModules ⟨fs, tr ++ [Op.readF ["pkg", e.fileName]]⟩ rest
            with ⟨res, s₂⟩
          rcases hrec₀ : discoverModules ⟨fs, [Op.readF ["pkg", e.fileName]]⟩ rest
            with ⟨res₀, s₀⟩
          have hr : res = res₀ := by
            have h₁ := fst_of_pair_eq hrec
            have h₂ := fst_of_pair_eq hrec₀
            rw [ih (tr ++ [Op.readF ["pkg", e.fileName]])] at h₁
            rw [ih [Op.readF ["pkg", e.fileName]]] at h₂
            rw [← h₁, ← h₂]
          subst hr
          rcases res with err | mods <;> simp [hrec, hrec₀]
      · simp only [hl, if_neg, if_false]
        exact ih tr

theorem lastSetEditor_snoc (f : FS) (tr : List Op) (i : String) (a : List EditorUpdate) :
    lastSetEditor ⟨f, tr ++ [Op.getSessionSecrets, Op.setEditor i a]⟩ = some (i, a) := by
  simp [lastSetEditor, List.findSome?]

/-- The local read operations a push attempts, in order. -/
def pushReadOps : List Op :=
  [Op.readF ["fumosync.json"], Op.readF ["README.md"], Op.readF ["init.server.luau"],
   Op.readDir ["pkg"]]

/-- Exhaustive enumeration of the behaviours of `push_project` from an
empty trace: each failure point, the state it leaves, and the exact trace;
on reaching the network phase, the submitted action sequence. -/
theorem push_project_cases (fs : FS) (secrets setEd : Except Nat Unit) :
    (∃ e, (read_configuration ⟨fs, []⟩).1 = .error e ∧
      push_project secrets setEd ⟨fs, []⟩ =
        (.error e, ⟨fs, [Op.readF ["fumosync.json"]]⟩)) ∨
    (∃ cfg, (read_configuration ⟨fs, []⟩).1 = .ok cfg ∧
      ((lookupFile fs.files ["README.md"] = none ∧
        push_project secrets setEd ⟨fs, []⟩ = (.error (.ReadFile ["README.md"]),
          ⟨fs, [Op.readF ["fumosync.json"], Op.readF ["README.md"]]⟩)) ∨
       (∃ dsc, lookupFile fs.files ["README.md"] = some dsc ∧
         ((lookupFile fs.files ["init.server.luau"] = none ∧
           push_project secrets setEd ⟨fs, []⟩ = (.error (.ReadFile ["init.server.luau"]),
             ⟨fs, [Op.readF ["fumosync.json"], Op.readF ["README.md"],
               Op.readF ["init.server.luau"]]⟩)) ∨
          (∃ mn, lookupFile fs.files ["init.server.luau"] = some mn ∧
            ((FS.dirExists fs ["pkg"] = false ∧
              push_project secrets setEd ⟨fs, []⟩ = (.error (.ReadDirectory ["pkg"]),
                ⟨fs, pushReadOps⟩)) ∨
             (FS.dirExists fs ["pkg"] = true ∧
               ∃ d, (∀ op ∈ d, ∃ x, op = Op.readF ["pkg", x]) ∧
                 ((∃ e, (discoverModules ⟨fs, []⟩ (FS.listDir fs ["pkg"])).1 = .error e ∧
                   push_project secrets setEd ⟨fs, []⟩ =
                     (.error e, ⟨fs, pushReadOps ++ d⟩)) ∨
                  (∃ mods,
                    (discoverModules ⟨fs, []⟩ (FS.listDir fs ["pkg"])).1 = .ok mods ∧
                    ((∃ c, secrets = .error c ∧
                      push_project secrets setEd ⟨fs, []⟩ = (.error (.Network c),
                        ⟨fs, (pushReadOps ++ d) ++ [Op.getSessionSecrets]⟩)) ∨
                     (secrets = .ok () ∧
                       ((∃ c, setEd = .error c ∧
                         push_project secrets setEd ⟨fs, []⟩ = (.error (.Network c),
                           ⟨fs, (pushReadOps ++ d) ++ [Op.getSessionSecrets,
                             Op.setEditor cfg.script_id
                               (pushActions cfg dsc mn mods)]⟩)) ∨
                        (setEd = .ok () ∧
                          push_project secrets setEd ⟨fs, []⟩ = (.ok (),
                            ⟨fs, (pushReadOps ++ d) ++ [Op.getSessionSecrets,
                              Op.setEditor cfg.script_id
                                (pushActions cfg dsc mn mods)]⟩)))))))))))))) := by
  rcases hc : lookupFile fs.files ["fumosync.json"] with _ | fc
  · refine Or.inl ⟨.ReadFile ["fumosync.json"], ?_, ?_⟩
    · rw [read_configuration_eq]
      simp [hc]
    · unfold push_project
      rw [read_configuration_eq]
      simp [hc]
  · rcases hpc : parseConfiguration fc with _ | cfg
    · refine Or.inl ⟨.Deserialize, ?_, ?_⟩
      · rw [read_configuration_eq]
        simp [hc, hpc]
      · unfold push_project
        rw [read_configuration_eq]
        simp [hc, hpc]
    · refine Or.inr ⟨cfg, by rw [read_configuration_eq]; simp [hc, hpc], ?_⟩
      rcases hrm : lookupFile fs.files ["README.md"] with _ | dsc
      · refine Or.inl ⟨rfl, ?_⟩
        unfold push_project
        rw [read_configuration_eq]
        simp only [hc, hpc]
        rw [readFile_eq]
        simp [hrm]
      · refine Or.inr ⟨dsc, rfl, ?_⟩
        rcases hmn : lookupFile fs.files ["init.server.luau"] with _ | mn
        · refine Or.inl ⟨rfl, ?_⟩
          unfold push_project
          rw [read_configuration_eq]
          simp only [hc, hpc]
          rw [readFile_eq]
          simp only [hrm]
          rw [readFile_eq]
          simp [hmn]
        · refine Or.inr ⟨mn, rfl, ?_⟩
          rcases hdir : FS.dirExists fs ["pkg"] with _ | _
          · refine Or.inl ⟨rfl, ?_⟩
            unfold push_project
            rw [read_configuration_eq]
            simp only [hc, hpc]
            rw [readFile_eq]
            simp only [hrm]
            rw [readFile_eq]
            simp only [hmn]
            rw [readDirectory_eq]
            simp [hdir, pushReadOps]
          · refine Or.inr ⟨rfl, ?_⟩
            rcases hdm : discoverModules ⟨fs, pushReadOps⟩ (FS.listDir fs ["pkg"])
              with ⟨rd, s₅⟩
            have hs₅fs : s₅.fs = fs := by
              rw [← snd_of_pair_eq hdm]
              exact discoverModules_fs _ _
            obtain ⟨d, hdtr, hdops⟩ : ∃ d, s₅.trace = pushReadOps ++ d ∧
                ∀ op ∈ d, ∃ x, op = Op.readF ["pkg", x] := by
              rw [← snd_of_pair_eq hdm]
              exact discoverModules_trace _ _
            have hrd : (discoverModules ⟨fs, []⟩ (FS.listDir fs ["pkg"])).1 = rd := by
              rw [← fst_of_pair_eq hdm]
              exact (discoverModules_fst fs pushReadOps _).symm
            have hs₅ : s₅ = ⟨fs, pushReadOps ++ d⟩ := by
              cases s₅
              simp only at hs₅fs hdtr
              rw [hs₅fs, hdtr]
            refine ⟨d, hdops, ?_⟩
            rcases rd with e | mods
            · refine Or.inl ⟨e, hrd, ?_⟩
              unfold push_project
              rw [read_configuration_eq]
              simp only [hc, hpc]
              rw [readFile_eq]
              simp only [hrm]
              rw [readFile_eq]
              simp only [hmn]
              rw [readDirectory_eq]
              simp only [hdir, if_pos, List.nil_append, List.singleton_append,
                List.cons_append, List.append_nil]
              rw [show (⟨fs, [Op.readF ["fumosync.json"], Op.readF ["README.md"],
                  Op.readF ["init.server.luau"], Op.readDir ["pkg"]]⟩ : St) =
                  (⟨fs, pushReadOps⟩ : St) from rfl, hdm]
              simp [hs₅]
            · refine Or.inr ⟨mods, hrd, ?_⟩
              rcases secrets with c | u
              · refine Or.inl ⟨c, rfl, ?_⟩
                unfold push_project
                rw [read_configuration_eq]
                simp only [hc, hpc]
                rw [readFile_eq]
                simp only [hrm]
                rw [readFile_eq]
                simp only [hmn]
                rw [readDirectory_eq]
                simp only [hdir, if_pos, List.nil_append, List.singleton_append,
                  List.cons_append, List.append_nil]
                rw [show (⟨fs, [Op.readF ["fumosync.json"], Op.readF ["README.md"],
                    Op.readF ["init.server.luau"], Op.readDir ["pkg"]]⟩ : St) =
                    (⟨fs, pushReadOps⟩ : St) from rfl, hdm]
                simp [hs₅]
              · cases u
                refine Or.inr ⟨rfl, ?_⟩
                rcases setEd with c | u
                · refine Or.inl ⟨c, rfl, ?_⟩
                  unfold push_project
                  rw [read_configuration_eq]
                  simp only [hc, hpc]
                  rw [readFile_eq]
                  simp only [hrm]
                  rw [readFile_eq]
                  simp only [hmn]
                  rw [readDirectory_eq]
                  simp only [hdir, if_pos, List.nil_append, List.singleton_append,
                    List.cons_append, List.append_nil]
                  rw [show (⟨fs, [Op.readF ["fumosync.json"], Op.readF ["README.md"],
                      Op.readF ["init.server.luau"], Op.readDir ["pkg"]]⟩ : St) =
                      (⟨fs, pushReadOps⟩ : St) from rfl, hdm]
                  simp [hs₅]
                · cases u
                  refine Or.inr ⟨rfl, ?_⟩
                  unfold push_project
                  rw [read_configuration_eq]
                  simp only [hc, hpc]
                  rw [readFile_eq]
                  simp only [hrm]
                  rw [readFile_eq]
                  simp only [hmn]
                  rw [readDirectory_eq]
                  simp only [hdir, if_pos, List.nil_append, List.singleton_append,
                    List.cons_append, List.append_nil]
                  rw [show (⟨fs, [Op.readF ["fumosync.json"], Op.readF ["README.md"],
                      Op.readF ["init.server.luau"], Op.readDir ["pkg"]]⟩ : St) =
                      (⟨fs, pushReadOps⟩ : St) from rfl, hdm]
                  simp [hs₅]

theorem chroot_module_files (ms : List (String × String)) :
    List.filterMap ((fun kv => Option.map (fun p => (p, kv.2)) (relTo ["demo"] kv.1)) ∘ fun m =>
        (["demo", "pkg", m.1 ++ ".luau"], FileContent.text m.2)) ms =
      ms.map fun m => (["pkg", m.1 ++ ".luau"], FileContent.text m.2) := by
  induction ms with
  | nil => rfl
  | cons m rest ih => simp only [List.filterMap_cons, Function.comp, relTo, ih]; simp [relTo]

theorem filterMap_childName_modules (ms : List (String × String)) :
    List.filterMap ((fun kv => Option.map
        (fun x => ({ fileName := x, fileType := some FileType.file } : DirEntry))
        (childName ["pkg"] kv.1)) ∘ fun m =>
        (["pkg", m.1 ++ ".luau"], FileContent.text m.2)) ms =
      ms.map fun m => ({ fileName := m.1 ++ ".luau", fileType := some FileType.file } : DirEntry) := by
  induction ms with
  | nil => rfl
  | cons m rest ih => simp only [List.filterMap_cons, Function.comp, childName, ih]; simp [childName]

theorem pushKey_inj : Function.Injective fun n : String => ["pkg", n ++ ".luau"] := by
  intro a b h
  have h2 := (List.cons.injEq _ _ _ _).mp h
  have h3 := (List.cons.injEq _ _ _ _).mp h2.2
  exact string_append_right_cancel _ _ _ h3.1

theorem push_after_pull_eq (scriptId : String) (info : ScriptInfo)
    (hne : ∀ m ∈ info.source.modules, m.1 ≠ "")
    (hnd : (info.source.modules.map Prod.fst).Nodup) :
    push_project (.ok ()) (.ok ())
      ⟨⟨[([".vscode", "settings.json"], .text settingsJsonText),
         (["init.server.luau"], .text info.source.main),
         (["README.md"], .text info.description),
         (["types.d.luau"], .text typesStub),
         (["fumosync.json"], .config ⟨info.name, scriptId, info.whitelist, info.is_public⟩)] ++
         info.source.modules.map (fun m => (["pkg", m.1 ++ ".luau"], FileContent.text m.2)),
        [["pkg"], [".vscode"]], []⟩, []⟩ =
      (.ok (),
       ⟨⟨[([".vscode", "settings.json"], .text settingsJsonText),
          (["init.server.luau"], .text info.source.main),
          (["README.md"], .text info.description),
          (["types.d.luau"], .text typesStub),
          (["fumosync.json"], .config ⟨info.name, scriptId, info.whitelist, info.is_public⟩)] ++
          info.source.modules.map (fun m => (["pkg", m.1 ++ ".luau"], FileContent.text m.2)),
         [["pkg"], [".vscode"]], []⟩,
        (pushReadOps ++ info.source.modules.map fun m => Op.readF ["pkg", m.1 ++ ".luau"]) ++
        [Op.getSessionSecrets,
         Op.setEditor scriptId
           (pushActions ⟨info.name, scriptId, info.whitelist, info.is_public⟩
             (.text info.description) (.text info.source.main) info.source.modules)]⟩) := by
  have hmods : ∀ m ∈ info.source.modules, m.1 ≠ "" ∧
      lookupFile
        ([([".vscode", "settings.json"], FileContent.text settingsJsonText),
          (["init.server.luau"], FileContent.text info.source.main),
          (["README.md"], FileContent.text info.description),
          (["types.d.luau"], FileContent.text typesStub),
          (["fumosync.json"],
           FileContent.config ⟨info.name, scriptId, info.whitelist, info.is_public⟩)] ++
          info.source.modules.map (fun m => (["pkg", m.1 ++ ".luau"], FileContent.text m.2)))
        ["pkg", m.1 ++ ".luau"] = some (.text m.2) := by
    intro m hm
    refine ⟨hne m hm, ?_⟩
    rw [lookupFile_append_left _ _ _ (by simp [lookupFile])]
    exact lookupFile_assoc_map (fun n => ["pkg", n ++ ".luau"]) pushKey_inj
      info.source.modules m hm hnd
  have hlist : FS.listDir
      ⟨[([".vscode", "settings.json"], .text settingsJsonText),
        (["init.server.luau"], .text info.source.main),
        (["README.md"], .text info.description),
        (["types.d.luau"], .text typesStub),
        (["fumosync.json"], .config ⟨info.name, scriptId, info.whitelist, info.is_public⟩)] ++
        info.source.modules.map (fun m => (["pkg", m.1 ++ ".luau"], FileContent.text m.2)),
       [["pkg"], [".vscode"]], []⟩ ["pkg"] =
      info.source.modules.map fun m =>
        ({ fileName := m.1 ++ ".luau", fileType := some FileType.file } : DirEntry) := by
    simp [FS.listDir, List.filterMap_append, memPath, childName]
    exact filterMap_childName_modules info.source.modules
  unfold push_project
  rw [read_configuration_eq]
  simp only [show lookupFile
      ([([".vscode", "settings.json"], FileContent.text settingsJsonText),
        (["init.server.luau"], FileContent.text info.source.main),
        (["README.md"], FileContent.text info.description),
        (["types.d.luau"], FileContent.text typesStub),
        (["fumosync.json"],
         FileContent.config ⟨info.name, scriptId, info.whitelist, info.is_public⟩)] ++
        info.source.modules.map (fun m => (["pkg", m.1 ++ ".luau"], FileContent.text m.2)))
      ["fumosync.json"] =
      some (.config ⟨info.name, scriptId, info.whitelist, info.is_public⟩) from rfl,
    parseConfiguration]
  rw [readFile_eq]
  simp only [show lookupFile
      ([([".vscode", "settings.json"], FileContent.text settingsJsonText),
        (["init.server.luau"], FileContent.text info.source.main),
        (["README.md"], FileContent.text info.description),
        (["types.d.luau"], FileContent.text typesStub),
        (["fumosync.json"],
         FileContent.config ⟨info.name, scriptId, info.whitelist, info.is_public⟩)] ++
        info.source.modules.map (fun m => (["pkg", m.1 ++ ".luau"], FileContent.text m.2)))
      ["README.md"] = some (.text info.description) from rfl]
  rw [readFile_eq]
  simp only [show lookupFile
      ([([".vscode", "settings.json"], FileContent.text settingsJsonText),
        (["init.server.luau"], FileContent.text info.source.main),
        (["README.md"], FileContent.text info.description),
        (["types.d.luau"], FileContent.text typesStub),
        (["fumosync.json"],
         FileContent.config ⟨info.name, scriptId, info.whitelist, info.is_public⟩)] ++
        info.source.modules.map (fun m => (["pkg", m.1 ++ ".luau"], FileContent.text m.2)))
      ["init.server.luau"] = some (.text info.source.main) from rfl]
  rw [readDirectory_eq]
  simp only [show (FS.dirExists
      ⟨[([".vscode", "settings.json"], FileContent.text settingsJsonText),
        (["init.server.luau"], FileContent.text info.source.main),
        (["README.md"], FileContent.text info.description),
        (["types.d.luau"], FileContent.text typesStub),
        (["fumosync.json"],
         FileContent.config ⟨info.name, scriptId, info.whitelist, info.is_public⟩)] ++
        info.source.modules.map (fun m => (["pkg", m.1 ++ ".luau"], FileContent.text m.2)),
       [["pkg"], [".vscode"]], []⟩ ["pkg"]) = true from rfl,
    if_pos]
  rw [hlist]
  rw [discoverModules_ok_of _ _ _ hmods]
  simp [pushActions, pushReadOps]

theorem modulePairs_map (ms : List (String × String)) :
    modulePairs (ms.map fun m => EditorUpdate.Module m.1 m.2) = ms := by
  induction ms with
  | nil => rfl
  | cons m rest ih => simp [modulePairs, ih]

/-- C1 (amended): pulling a remote snapshot into a fresh directory `./demo`
and then pushing with no local edits submits a `set_editor` call whose
`Name`, `Whitelist`, `Publicity`, `Description` and `MainSource` payloads
equal the snapshot's fields and whose `Module` actions, taken as a set
(order-independent, since directory enumeration order is unspecified),
equal the snapshot's module mapping — provided every module name of the
snapshot is nonempty and free of path separators (and, as the remote
mapping guarantees, the names are distinct). -/
theorem c1_pull_then_push_roundtrip (scriptId : String) (info : ScriptInfo)
    (hne : ∀ m ∈ info.source.modules, m.1 ≠ "")
    (hplain : ∀ m ∈ info.source.modules, noSlash m.1)
    (hnd : (info.source.modules.map Prod.fst).Nodup) :
    (pull_project scriptId ["demo"] (.ok ()) (.ok info) ⟨FS.empty, []⟩).1 = .ok () ∧
    (push_project (.ok ()) (.ok ())
      ⟨((pull_project scriptId ["demo"] (.ok ()) (.ok info) ⟨FS.empty, []⟩).2).fs.chroot ["demo"],
       []⟩).1 = .ok () ∧
    ∃ modActs,
      lastSetEditor ((push_project (.ok ()) (.ok ())
        ⟨((pull_project scriptId ["demo"] (.ok ()) (.ok info) ⟨FS.empty, []⟩).2).fs.chroot ["demo"],
         []⟩).2) =
        some (scriptId,
          [EditorUpdate.Name info.name, EditorUpdate.Whitelist info.whitelist,
           EditorUpdate.Publicity info.is_public, EditorUpdate.Description info.description,
           EditorUpdate.MainSource info.source.main] ++ modActs) ∧
      ∀ pr : String × String, pr ∈ modulePairs modActs ↔ pr ∈ info.source.modules := by
  have hstage : pull_project scriptId ["demo"] (.ok ()) (.ok info) ⟨FS.empty, []⟩ =
      writeModules ["demo"] info.source.modules
        ⟨⟨[(["demo", ".vscode", "settings.json"], .text settingsJsonText),
           (["demo", "init.server.luau"], .text info.source.main),
           (["demo", "README.md"], .text info.description),
           (["demo", "types.d.luau"], .text typesStub),
           (["demo", "fumosync.json"],
            .config ⟨info.name, scriptId, info.whitelist, info.is_public⟩)],
          [["demo"], ["demo", "pkg"], ["demo", ".vscode"]], []⟩,
         [Op.getSessionSecrets, Op.mkDir ["demo"], Op.mkDir ["demo", "pkg"],
          Op.mkDir ["demo", ".vscode"], Op.writeF ["demo", ".vscode", "settings.json"],
          Op.writeF ["demo", "init.server.luau"], Op.writeF ["demo", "README.md"],
          Op.writeF ["demo", "types.d.luau"], Op.writeF ["demo", "fumosync.json"],
          Op.getEditor scriptId, Op.writeF ["demo", "README.md"],
          Op.writeF ["demo", "init.server.luau"], Op.writeF ["demo", "fumosync.json"]]⟩ := by
    rfl
  have hpull := hstage.trans (writeModules_ok_of info.source.modules _
    (by rfl)
    (by rfl)
    hplain
    (by intro m hm; simp [memPath])
    (by intro m hm; simp [lookupFile])
    hnd)
  have hcfs : ((pull_project scriptId ["demo"] (.ok ()) (.ok info) ⟨FS.empty, []⟩).2).fs.chroot ["demo"] =
      ⟨[([".vscode", "settings.json"], .text settingsJsonText),
        (["init.server.luau"], .text info.source.main),
        (["README.md"], .text info.description),
        (["types.d.luau"], .text typesStub),
        (["fumosync.json"], .config ⟨info.name, scriptId, info.whitelist, info.is_public⟩)] ++
        info.source.modules.map (fun m => (["pkg", m.1 ++ ".luau"], FileContent.text m.2)),
       [["pkg"], [".vscode"]], []⟩ := by
    rw [snd_of_pair_eq hpull]
    simp [FS.chroot, List.filterMap_append, relTo]
    exact chroot_module_files info.source.modules
  refine ⟨by rw [fst_of_pair_eq hpull], ?_, ?_⟩
  · rw [hcfs, fst_of_pair_eq (push_after_pull_eq scriptId info hne hnd)]
  · rw [hcfs, snd_of_pair_eq (push_after_pull_eq scriptId info hne hnd)]
    refine ⟨info.source.modules.map fun m => EditorUpdate.Module m.1 m.2, ?_, ?_⟩
    · rw [lastSetEditor_snoc]
      simp [pushActions, FileContent.asText]
    · intro pr
      rw [modulePairs_map]


/-- A concrete snapshot used as the round-trip witness. -/
def demoScript : ScriptInfo :=
  { name := "n", description := "dsc", whitelist := ["alice"], is_public := true,
    source := { main := "print(1)", modules := [("util", "return 1"), ("b", "s2")] } }

/-- Witness for C1 at a concrete snapshot. -/
theorem c1_pull_then_push_roundtrip_witness :
    (pull_project "42" ["demo"] (.ok ()) (.ok demoScript) ⟨FS.empty, []⟩).1 = .ok () ∧
    (push_project (.ok ()) (.ok ())
      ⟨((pull_project "42" ["demo"] (.ok ()) (.ok demoScript) ⟨FS.empty, []⟩).2).fs.chroot ["demo"],
       []⟩).1 = .ok () ∧
    ∃ modActs,
      lastSetEditor ((push_project (.ok ()) (.ok ())
        ⟨((pull_project "42" ["demo"] (.ok ()) (.ok demoScript) ⟨FS.empty, []⟩).2).fs.chroot
          ["demo"], []⟩).2) =
        some ("42",
          [EditorUpdate.Name demoScript.name, EditorUpdate.Whitelist demoScript.whitelist,
           EditorUpdate.Publicity demoScript.is_public,
           EditorUpdate.Description demoScript.description,
           EditorUpdate.MainSource demoScript.source.main] ++ modActs) ∧
      ∀ pr : String × String, pr ∈ modulePairs modActs ↔ pr ∈ demoScript.source.modules :=
  c1_pull_then_push_roundtrip "42" demoScript (by decide)
    (by simp only [noSlash]; decide) (by decide)

/-- A snapshot whose single module has the empty name. -/
def emptyNameScript : ScriptInfo :=
  { name := "n", description := "d", whitelist := [], is_public := false,
    source := { main := "m", modules := [("", "x")] } }

/-- A snapshot whose single module name contains a path separator. -/
def slashScript : ScriptInfo :=
  { name := "n", description := "d", whitelist := [], is_public := false,
    source := { main := "m", modules := [("a/b", "x")] } }

/-- C1 counterexample: for the snapshot with a module named `""`, pull
writes `pkg/.luau`, whose Rust path extension is `None`, so the subsequent
push discovers no modules at all: both operations succeed but the submitted
`Module` actions, as a set, do not equal the snapshot's module mapping
(`("", "x")` is in the snapshot's mapping but in no submitted action).
And for the snapshot with a module named `a/b`, the name's separator makes
the module write target `pkg/a/b.luau`, whose parent directory does not
exist, so pull itself fails and no round trip happens at all: the nonempty
and separator-free hypotheses are both necessary. -/
theorem c1_roundtrip_counterexample :
    (pull_project "42" ["demo"] (.ok ()) (.ok emptyNameScript) ⟨FS.empty, []⟩).1 = .ok () ∧
    (push_project (.ok ()) (.ok ())
      ⟨((pull_project "42" ["demo"] (.ok ()) (.ok emptyNameScript) ⟨FS.empty, []⟩).2).fs.chroot
        ["demo"], []⟩).1 = .ok () ∧
    lastSetEditor ((push_project (.ok ()) (.ok ())
      ⟨((pull_project "42" ["demo"] (.ok ()) (.ok emptyNameScript) ⟨FS.empty, []⟩).2).fs.chroot
        ["demo"], []⟩).2) =
      some ("42",
        [EditorUpdate.Name "n", EditorUpdate.Whitelist [], EditorUpdate.Publicity false,
         EditorUpdate.Description "d", EditorUpdate.MainSource "m"]) ∧
    modulePairs
        [EditorUpdate.Name "n", EditorUpdate.Whitelist [], EditorUpdate.Publicity false,
         EditorUpdate.Description "d", EditorUpdate.MainSource "m"] = [] ∧
    ("", "x") ∈ emptyNameScript.source.modules ∧
    ("", "x") ∉ ([] : List (String × String)) ∧
    (pull_project "42" ["demo"] (.ok ()) (.ok slashScript) ⟨FS.empty, []⟩).1 =
      .error (.CreateFile ["demo", "pkg", "a", "b.luau"]) := by
  refine ⟨by decide, by decide, by decide, by decide, by decide, by decide, by decide⟩

/-- C2: every successful `push_project` submits exactly
`[Name, Whitelist, Publicity, Description, MainSource]` followed by one
`Module` action per discovered module, in discovery (directory
enumeration) order. -/
theorem c2_push_action_sequence (fs : FS) (secrets setEd : Except Nat Unit)
    (hok : (push_project secrets setEd ⟨fs, []⟩).1 = .ok ()) :
    ∃ cfg dsc mn mods,
      (read_configuration ⟨fs, []⟩).1 = .ok cfg ∧
      lookupFile fs.files ["README.md"] = some dsc ∧
      lookupFile fs.files ["init.server.luau"] = some mn ∧
      (discoverModules ⟨fs, []⟩ (FS.listDir fs ["pkg"])).1 = .ok mods ∧
      lastSetEditor (push_project secrets setEd ⟨fs, []⟩).2 =
        some (cfg.script_id,
          [EditorUpdate.Name cfg.script_name, EditorUpdate.Whitelist cfg.whitelist,
           EditorUpdate.Publicity cfg.is_public, EditorUpdate.Description dsc.asText,
           EditorUpdate.MainSource mn.asText] ++
          mods.map fun m => EditorUpdate.Module m.1 m.2) := by
  rcases push_project_cases fs secrets setEd with ⟨e, hre, hp⟩ | ⟨cfg, hrc, hrest⟩
  · rw [hp] at hok
    simp at hok
  · rcases hrest with ⟨hrm, hp⟩ | ⟨dsc, hrm, hrest⟩
    · rw [hp] at hok
      simp at hok
    · rcases hrest with ⟨hmn, hp⟩ | ⟨mn, hmn, hrest⟩
      · rw [hp] at hok
        simp at hok
      · rcases hrest with ⟨hdir, hp⟩ | ⟨hdir, d, hdops, hrest⟩
        · rw [hp] at hok
          simp at hok
        · rcases hrest with ⟨e, hdm, hp⟩ | ⟨mods, hdm, hrest⟩
          · rw [hp] at hok
            simp at hok
          · rcases hrest with ⟨c, hsec, hp⟩ | ⟨hsec, hrest⟩
            · rw [hp] at hok
              simp at hok
            · rcases hrest with ⟨c, hsed, hp⟩ | ⟨hsed, hp⟩
              · rw [hp] at hok
                simp at hok
              · refine ⟨cfg, dsc, mn, mods, hrc, hrm, hmn, hdm, ?_⟩
                rw [snd_of_pair_eq hp, lastSetEditor_snoc]
                simp [pushActions]

/-- A filesystem on which a push succeeds, used as witness input. -/
def pushableFS : FS :=
  ⟨[(["fumosync.json"], .config ⟨"n", "42", ["alice"], true⟩),
    (["README.md"], .text "d"),
    (["init.server.luau"], .text "m"),
    (["pkg", "a.luau"], .text "A")],
   [["pkg"]], []⟩

/-- Witness for C2 on a concrete filesystem. -/
theorem c2_push_action_sequence_witness :
    (push_project (.ok ()) (.ok ()) ⟨pushableFS, []⟩).1 = .ok () ∧
    (∃ cfg dsc mn mods,
      (read_configuration ⟨pushableFS, []⟩).1 = .ok cfg ∧
      lookupFile pushableFS.files ["README.md"] = some dsc ∧
      lookupFile pushableFS.files ["init.server.luau"] = some mn ∧
      (discoverModules ⟨pushableFS, []⟩ (FS.listDir pushableFS ["pkg"])).1 = .ok mods ∧
      lastSetEditor (push_project (.ok ()) (.ok ()) ⟨pushableFS, []⟩).2 =
        some (cfg.script_id,
          [EditorUpdate.Name cfg.script_name, EditorUpdate.Whitelist cfg.whitelist,
           EditorUpdate.Publicity cfg.is_public, EditorUpdate.Description dsc.asText,
           EditorUpdate.MainSource mn.asText] ++
          mods.map fun m => EditorUpdate.Module m.1 m.2)) :=
  ⟨by decide, c2_push_action_sequence pushableFS (.ok ()) (.ok ()) (by decide)⟩

/-- C3 counterexample: on a filesystem with no `fumosync.json` at all,
`read_configuration` fails with the `ReadFile` kind produced by
`read_file`, not with the `Deserialize` kind the claim asserts. -/
theorem c3_read_configuration_counterexample :
    (read_configuration ⟨FS.empty, []⟩).1 = .error (.ReadFile ["fumosync.json"]) ∧
    ¬((read_configuration ⟨FS.empty, []⟩).1 = .error .Deserialize) := by
  refine ⟨by decide, by decide⟩

/-- C3 (amended): `read_configuration` fails with the path-qualified
`ReadFile` kind when `fumosync.json` is absent, and with the `Deserialize`
kind when the file is present but not a valid configuration. -/
theorem c3_read_configuration_error_kinds (fs : FS) (tr : List Op) :
    (lookupFile fs.files ["fumosync.json"] = none →
      (read_configuration ⟨fs, tr⟩).1 = .error (.ReadFile ["fumosync.json"])) ∧
    (∀ t, lookupFile fs.files ["fumosync.json"] = some (.text t) →
      (read_configuration ⟨fs, tr⟩).1 = .error .Deserialize) := by
  constructor
  · intro h
    rw [read_configuration_eq]
    simp [h]
  · intro t h
    rw [read_configuration_eq]
    simp [h, parseConfiguration]

/-- Witness for C3 at concrete filesystems (absent and malformed). -/
theorem c3_read_configuration_error_kinds_witness :
    (read_configuration ⟨FS.empty, []⟩).1 = .error (.ReadFile ["fumosync.json"]) ∧
    (read_configuration ⟨⟨[(["fumosync.json"], .text "oops")], [], []⟩, []⟩).1 =
      .error .Deserialize :=
  ⟨(c3_read_configuration_error_kinds FS.empty []).1 (by decide),
   (c3_read_configuration_error_kinds ⟨[(["fumosync.json"], .text "oops")], [], []⟩ []).2
     "oops" (by decide)⟩

/-- C4: pushing in a directory with no `fumosync.json` fails with the
configuration-read error and the trace contains no network operation:
neither session-secret acquisition nor a `set_editor` submission is ever
attempted. -/
theorem c4_push_fail_fast (fs : FS) (secrets setEd : Except Nat Unit)
    (h : lookupFile fs.files ["fumosync.json"] = none) :
    (push_project secrets setEd ⟨fs, []⟩).1 = .error (.ReadFile ["fumosync.json"]) ∧
    ∀ op ∈ (push_project secrets setEd ⟨fs, []⟩).2.trace, isNetworkOp op = false := by
  have hp : push_project secrets setEd ⟨fs, []⟩ =
      (.error (.ReadFile ["fumosync.json"]), ⟨fs, [Op.readF ["fumosync.json"]]⟩) := by
    unfold push_project
    rw [read_configuration_eq]
    simp [h]
  rw [hp]
  exact ⟨rfl, by simp [isNetworkOp]⟩

/-- Witness for C4 on the empty filesystem. -/
theorem c4_push_fail_fast_witness :
    (push_project (.ok ()) (.ok ()) ⟨FS.empty, []⟩).1 =
      .error (.ReadFile ["fumosync.json"]) ∧
    ∀ op ∈ (push_project (.ok ()) (.ok ()) ⟨FS.empty, []⟩).2.trace,
      isNetworkOp op = false :=
  c4_push_fail_fast FS.empty (.ok ()) (.ok ()) (by decide)

theorem append_seg_ne (dir : List String) (l₁ l₂ : List String) (h : l₁ ≠ l₂) :
    dir ++ l₁ ≠ dir ++ l₂ :=
  fun hc => h (List.append_cancel_left hc)

/-- C5: `init` on a path at which a filesystem entry already exists fails
with `DirectoryAlreadyExists` leaving the state (filesystem and trace)
untouched; consequently a second `init` after a successful one fails with
`DirectoryAlreadyExists` and changes nothing. -/
theorem c5_init_already_exists (fs : FS) (tr : List Op) (dir : List String) :
    (FS.pathExists fs dir = true →
      init dir ⟨fs, tr⟩ = (.error (.DirectoryAlreadyExists dir), ⟨fs, tr⟩)) ∧
    (∀ s₁, init dir ⟨fs, tr⟩ = (.ok (), s₁) →
      init dir s₁ = (.error (.DirectoryAlreadyExists dir), s₁)) := by
  constructor
  · intro h
    unfold init
    simp [h]
  · intro s₁ h
    have hd := (init_ok_spec dir _ _ h).1
    have hmem : memPath dir s₁.fs.dirs = true := by
      rw [hd, memPath_append]
      simp [memPath]
    have hex : FS.pathExists s₁.fs dir = true := by
      simp [FS.pathExists, hmem]
    unfold init
    simp [hex]

set_option maxRecDepth 100000 in
/-- Witness for C5: `init` into an existing `demo/`, and twice in a row
from scratch. -/
theorem c5_init_already_exists_witness :
    init ["demo"] ⟨⟨[], [["demo"]], []⟩, []⟩ =
      (.error (.DirectoryAlreadyExists ["demo"]), ⟨⟨[], [["demo"]], []⟩, []⟩) ∧
    init ["demo"] ((init ["demo"] ⟨FS.empty, []⟩).2) =
      (.error (.DirectoryAlreadyExists ["demo"]), (init ["demo"] ⟨FS.empty, []⟩).2) :=
  ⟨(c5_init_already_exists ⟨[], [["demo"]], []⟩ [] ["demo"]).1 (by decide),
   (c5_init_already_exists FS.empty [] ["demo"]).2 ((init ["demo"] ⟨FS.empty, []⟩).2)
     (by decide)⟩

/-- C6: a successful `init` on a non-existent target creates the root,
`pkg/` and `.vscode/` directories, writes the four scaffold files, and
writes `fumosync.json` holding the configuration with `script_id` `"???"`,
empty whitelist, `is_public = false`, and `script_name` the target's final
segment with literal fallback `"unknown"`. -/
theorem c6_init_scaffold (fs : FS) (tr : List Op) (dir : List String) (s₁ : St)
    (hne : FS.pathExists fs dir = false)
    (h : init dir ⟨fs, tr⟩ = (.ok (), s₁)) :
    memPath dir s₁.fs.dirs = true ∧
    memPath (dir ++ ["pkg"]) s₁.fs.dirs = true ∧
    memPath (dir ++ [".vscode"]) s₁.fs.dirs = true ∧
    lookupFile s₁.fs.files (dir ++ [".vscode", "settings.json"]) =
      some (.text settingsJsonText) ∧
    lookupFile s₁.fs.files (dir ++ ["init.server.luau"]) = some (.text initServerStub) ∧
    lookupFile s₁.fs.files (dir ++ ["README.md"]) = some (.text readmeStub) ∧
    lookupFile s₁.fs.files (dir ++ ["types.d.luau"]) = some (.text typesStub) ∧
    lookupFile s₁.fs.files (dir ++ ["fumosync.json"]) =
      some (.config { script_name := dir.getLast?.getD "unknown", script_id := "???",
                      whitelist := [], is_public := false }) := by
  obtain ⟨hd, hf, hb⟩ := init_ok_spec dir _ _ h
  refine ⟨?_, ?_, ?_, ?_, ?_, ?_, ?_, ?_⟩
  · rw [hd, memPath_append]
    simp [memPath]
  · rw [hd, memPath_append]
    simp [memPath]
  · rw [hd, memPath_append]
    simp [memPath]
  · rw [hf,
      lookupFile_setFile_ne _ _ _ _ (append_seg_ne dir _ _ (by decide)),
      lookupFile_setFile_ne _ _ _ _ (append_seg_ne dir _ _ (by decide)),
      lookupFile_setFile_ne _ _ _ _ (append_seg_ne dir _ _ (by decide)),
      lookupFile_setFile_ne _ _ _ _ (append_seg_ne dir _ _ (by decide)),
      lookupFile_setFile_self]
  · rw [hf,
      lookupFile_setFile_ne _ _ _ _ (append_seg_ne dir _ _ (by decide)),
      lookupFile_setFile_ne _ _ _ _ (append_seg_ne dir _ _ (by decide)),
      lookupFile_setFile_ne _ _ _ _ (append_seg_ne dir _ _ (by decide)),
      lookupFile_setFile_self]
  · rw [hf,
      lookupFile_setFile_ne _ _ _ _ (append_seg_ne dir _ _ (by decide)),
      lookupFile_setFile_ne _ _ _ _ (append_seg_ne dir _ _ (by decide)),
      lookupFile_setFile_self]
  · rw [hf,
      lookupFile_setFile_ne _ _ _ _ (append_seg_ne dir _ _ (by decide)),
      lookupFile_setFile_self]
  · rw [hf, lookupFile_setFile_self]
    rfl

set_option maxRecDepth 100000 in
/-- Witness for C6: `init` into `./demo` on an empty filesystem yields the
scenario of the spec: `fumosync.json` holds `scriptName "demo"`,
`scriptId "???"`, empty whitelist, private; `pkg/` exists. -/
theorem c6_init_scaffold_witness :
    FS.pathExists FS.empty ["demo"] = false ∧
    lookupFile ((init ["demo"] ⟨FS.empty, []⟩).2).fs.files (["demo"] ++ ["fumosync.json"]) =
      some (.config ⟨"demo", "???", [], false⟩) ∧
    memPath (["demo"] ++ ["pkg"]) ((init ["demo"] ⟨FS.empty, []⟩).2).fs.dirs = true ∧
    lookupFile ((init ["demo"] ⟨FS.empty, []⟩).2).fs.files (["demo"] ++ ["types.d.luau"]) =
      some (.text typesStub) :=
  ⟨by decide,
   ((c6_init_scaffold FS.empty [] ["demo"] (init ["demo"] ⟨FS.empty, []⟩).2 (by decide)
       (by decide)).2.2.2.2.2.2.2).trans (by decide),
   (c6_init_scaffold FS.empty [] ["demo"] (init ["demo"] ⟨FS.empty, []⟩).2 (by decide)
       (by decide)).2.1,
   (c6_init_scaffold FS.empty [] ["demo"] (init ["demo"] ⟨FS.empty, []⟩).2 (by decide)
       (by decide)).2.2.2.2.2.2.1⟩

/-- C7: module discovery emits exactly the entries that are regular files
whose extension is (case-sensitively) `luau`: each such entry contributes
its file name with the extension stripped together with the file's content;
entries with a failed file-kind lookup are skipped non-fatally, and every
other entry (other extension, no extension, subdirectory) is ignored. -/
theorem c7_discovery_filter (fs : FS) (tr : List Op) (entries : List DirEntry)
    (h : ∀ e ∈ entries, e.fileType = some FileType.file →
      (extSplit e.fileName).2.getD "" = "luau" →
      (lookupFile fs.files ["pkg", e.fileName]).isSome = true) :
    (discoverModules ⟨fs, tr⟩ entries).1 =
      .ok ((entries.filter fun e =>
          e.fileType == some FileType.file &&
            (extSplit e.fileName).2.getD "" == "luau").map
        fun e => ((extSplit e.fileName).1,
          ((lookupFile fs.files ["pkg", e.fileName]).getD (.text "")).asText)) := by
  induction entries generalizing tr with
  | nil => simp [discoverModules]
  | cons e rest ih =>
    unfold discoverModules
    rcases hft : e.fileType with _ | ft
    · rw [ih tr fun e' he' => h e' (by simp [he'])]
      have hcond : (e.fileType == some FileType.file &&
          (extSplit e.fileName).2.getD "" == "luau") = false := by
        simp [hft]
      simp [List.filter_cons, hcond]
    · simp only
      by_cases hc : ft = FileType.file ∧ (extSplit e.fileName).2.getD "" = "luau"
      · rw [if_pos hc]
        have hsome := h e (by simp) (by rw [hft, hc.1]) hc.2
        obtain ⟨c, hcc⟩ := Option.isSome_iff_exists.mp hsome
        rw [readFile_eq]
        simp only [hcc]
        rcases hrec : discoverModules ⟨fs, tr ++ [Op.readF ["pkg", e.fileName]]⟩ rest
          with ⟨res, s₂⟩
        have hres := ih (tr ++ [Op.readF ["pkg", e.fileName]]) fun e' he' => h e' (by simp [he'])
        rw [hrec] at hres
        rcases res with err | mods
        · simp at hres
        · simp only [Except.ok.injEq] at hres
          have hcond : (e.fileType == some FileType.file &&
              (extSplit e.fileName).2.getD "" == "luau") = true := by
            simp [hft, hc.1, hc.2]
          simp [List.filter_cons, hcond, hcc, hres]
      · rw [if_neg hc]
        rw [ih tr fun e' he' => h e' (by simp [he'])]
        have hcond : (e.fileType == some FileType.file &&
            (extSplit e.fileName).2.getD "" == "luau") = false := by
          rw [hft]
          by_cases h₁ : ft = FileType.file
          · subst h₁
            have h₂ : ¬((extSplit e.fileName).2.getD "" = "luau") := fun hcc => hc ⟨rfl, hcc⟩
            simp [h₂]
          · simp [h₁]
        simp [List.filter_cons, hcond]

/-- Witness for C7: the spec's extension-filter scenario — a `pkg/` holding
`a.luau`, `b.luau`, `notes.txt` and a subdirectory `sub/` yields exactly
the modules `a` and `b`. -/
theorem c7_discovery_filter_witness :
    (discoverModules ⟨⟨[(["pkg", "a.luau"], .text "A"), (["pkg", "b.luau"], .text "B"),
        (["pkg", "notes.txt"], .text "N")], [["pkg"], ["pkg", "sub"]], []⟩, []⟩
      [⟨"a.luau", some FileType.file⟩, ⟨"b.luau", some FileType.file⟩,
       ⟨"notes.txt", some FileType.file⟩, ⟨"sub", some FileType.directory⟩]).1 =
      .ok [("a", "A"), ("b", "B")] :=
  (c7_discovery_filter
    ⟨[(["pkg", "a.luau"], .text "A"), (["pkg", "b.luau"], .text "B"),
      (["pkg", "notes.txt"], .text "N")], [["pkg"], ["pkg", "sub"]], []⟩ []
    [⟨"a.luau", some FileType.file⟩, ⟨"b.luau", some FileType.file⟩,
     ⟨"notes.txt", some FileType.file⟩, ⟨"sub", some FileType.directory⟩]
    (by decide)).trans (by decide)

/-- C8: when the init step inside `pull_project` fails with `e`, the pull
returns `ProjectDidntInitialize e` (preserving the inner cause), leaves the
state exactly as init left it, and the trace contains neither a
`get_editor` fetch nor any `set_editor` write. -/
theorem c8_pull_wraps_init_failure (fs : FS) (scriptId : String) (dir : List String)
    (editor : Except Nat ScriptInfo) (e : Error) (s₁ : St)
    (h : init dir ⟨fs, [Op.getSessionSecrets]⟩ = (.error e, s₁)) :
    pull_project scriptId dir (.ok ()) editor ⟨fs, []⟩ =
      (.error (.ProjectDidntInitialize e), s₁) ∧
    ∀ op ∈ s₁.trace, (∀ i, op ≠ Op.getEditor i) ∧ (∀ i a, op ≠ Op.setEditor i a) := by
  constructor
  · unfold pull_project
    simp only [List.nil_append]
    rw [h]
  · obtain ⟨d, hd, hops⟩ := init_trace_ops dir _ _ _ h
    intro op hop
    rw [hd] at hop
    rcases List.mem_append.mp hop with h₁ | h₂
    · simp only [List.mem_singleton] at h₁
      subst h₁
      exact ⟨fun i => by simp, fun i a => by simp⟩
    · have hnet := hops op h₂
      constructor
      · intro i hcc
        rw [hcc] at hnet
        simp [isNetworkOp] at hnet
      · intro i a hcc
        rw [hcc] at hnet
        simp [isNetworkOp] at hnet

/-- Witness for C8: pulling into a path that already exists. -/
theorem c8_pull_wraps_init_failure_witness :
    pull_project "42" ["demo"] (.ok ()) (.ok demoScript) ⟨⟨[], [["demo"]], []⟩, []⟩ =
      (.error (.ProjectDidntInitialize (.DirectoryAlreadyExists ["demo"])),
       ⟨⟨[], [["demo"]], []⟩, [Op.getSessionSecrets]⟩) :=
  (c8_pull_wraps_init_failure ⟨[], [["demo"]], []⟩ "42" ["demo"] (.ok demoScript)
    (.DirectoryAlreadyExists ["demo"]) ⟨⟨[], [["demo"]], []⟩, [Op.getSessionSecrets]⟩
    (by decide)).1

theorem writeModules_trace_ops (dir : List String) (ms : List (String × String))
    (hclean : ∀ seg ∈ dir, ¬(seg = ".") ∧ ¬(seg = ".."))
    (s : St) (r : Except Error Unit) (s' : St)
    (hplain : ∀ m ∈ ms, noSlash m.1)
    (h : writeModules dir ms s = (r, s')) :
    ∃ d, s'.trace = s.trace ++ d ∧
      ∀ op ∈ d, ∃ m ∈ ms, op = Op.writeF (dir ++ ["pkg", m.1 ++ ".luau"]) := by
  induction ms generalizing s with
  | nil =>
    simp only [writeModules] at h
    cases h
    exact ⟨[], by simp, by simp⟩
  | cons m rest ih =>
    rcases m with ⟨n, src⟩
    have hn : noSlash n := hplain (n, src) (by simp)
    have hrest : ∀ m' ∈ rest, noSlash m'.1 := fun m' hm' => hplain m' (by simp [hm'])
    simp only [writeModules] at h
    split at h
    · rename_i e₁ s₁' heq₁
      cases h
      refine ⟨[Op.writeF (dir ++ ["pkg", n ++ ".luau"])], ?_, ?_⟩
      · rw [← snd_of_pair_eq heq₁]
        exact writeModuleFile_trace dir n src s hclean hn
      · intro op hop
        simp only [List.mem_singleton] at hop
        exact ⟨(n, src), by simp, hop⟩
    · rename_i a₁ s₁' heq₁
      obtain ⟨d, hd, hops⟩ := ih s₁' hrest h
      refine ⟨Op.writeF (dir ++ ["pkg", n ++ ".luau"]) :: d, ?_, ?_⟩
      · rw [hd, ← snd_of_pair_eq heq₁, writeModuleFile_trace dir n src s hclean hn]
        simp
      · intro op hop
        rcases List.mem_cons.mp hop with h₁ | h₂
        · exact ⟨(n, src), by simp, h₁⟩
        · obtain ⟨m', hm', hop'⟩ := hops op h₂
          exact ⟨m', by simp [hm'], hop'⟩

theorem pullHydrate_trace_ops (scriptId : String) (dir : List String) (info : ScriptInfo)
    (hclean : ∀ seg ∈ dir, ¬(seg = ".") ∧ ¬(seg = ".."))
    (hplain : ∀ m ∈ info.source.modules, noSlash m.1)
    (s : St) (r : Except Error Unit) (s' : St) (h : pullHydrate scriptId dir info s = (r, s')) :
    ∃ d, s'.trace = s.trace ++ d ∧
      ∀ op ∈ d,
        op = Op.writeF (dir ++ ["README.md"]) ∨
        op = Op.writeF (dir ++ ["init.server.luau"]) ∨
        op = Op.writeF (dir ++ ["fumosync.json"]) ∨
        ∃ m ∈ info.source.modules, op = Op.writeF (dir ++ ["pkg", m.1 ++ ".luau"]) := by
  unfold pullHydrate at h
  split at h
  · rename_i e₁ s₁' heq₁
    cases h
    exact ⟨[Op.writeF (dir ++ ["README.md"])], trace_of_writeFile heq₁, by simp⟩
  · rename_i a₁ s₁' heq₁
    have t₁ := trace_of_writeFile heq₁
    split at h
    · rename_i e₂ s₂' heq₂
      cases h
      refine ⟨[Op.writeF (dir ++ ["README.md"]), Op.writeF (dir ++ ["init.server.luau"])],
        ?_, by simp⟩
      rw [trace_of_writeFile heq₂, t₁]
      simp
    · rename_i a₂ s₂' heq₂
      have t₂ := trace_of_writeFile heq₂
      split at h
      · rename_i e₃ s₃' heq₃
        cases h
        refine ⟨[Op.writeF (dir ++ ["README.md"]), Op.writeF (dir ++ ["init.server.luau"]),
          Op.writeF (dir ++ ["fumosync.json"])], ?_, by simp⟩
        rw [trace_of_writeFile heq₃, t₂, t₁]
        simp
      · rename_i a₃ s₃' heq₃
        have t₃ := trace_of_writeFile heq₃
        obtain ⟨d, hd, hops⟩ :=
          writeModules_trace_ops dir info.source.modules hclean s₃' r s' hplain h
        refine ⟨[Op.writeF (dir ++ ["README.md"]), Op.writeF (dir ++ ["init.server.luau"]),
          Op.writeF (dir ++ ["fumosync.json"])] ++ d, ?_, ?_⟩
        · rw [hd, t₃, t₂, t₁]
          simp
        · intro op hop
          rcases List.mem_append.mp hop with h₁ | h₂
          · simp only [List.mem_cons, List.mem_singleton] at h₁
            rcases h₁ with h₁ | h₁ | h₁
            · exact Or.inl h₁
            · exact Or.inr (Or.inl h₁)
            · simp at h₁
              exact Or.inr (Or.inr (Or.inl h₁))
          · obtain ⟨m', hm', hop'⟩ := hops op h₂
            exact Or.inr (Or.inr (Or.inr ⟨m', hm', hop'⟩))

/-- C9 (amended): provided the target directory path has no `.` or `..`
components and every fetched module name is free of path separators, the
post-init steps of pull only ever write `README.md`, `init.server.luau`,
`fumosync.json` and `pkg/<name>.luau` for fetched module names (no reads,
no directory creation, in particular never `.vscode/settings.json` or
`types.d.luau`); and push — unconditionally — performs no local write or
directory creation at all, and never reads `.vscode/settings.json` or
`types.d.luau`. -/
theorem c9_scaffold_frame :
    (∀ (scriptId : String) (dir : List String) (info : ScriptInfo) (s : St)
       (r : Except Error Unit) (s' : St),
      (∀ seg ∈ dir, ¬(seg = ".") ∧ ¬(seg = "..")) →
      (∀ m ∈ info.source.modules, noSlash m.1) →
      pullHydrate scriptId dir info s = (r, s') →
      ∃ d, s'.trace = s.trace ++ d ∧ ∀ op ∈ d,
        op = Op.writeF (dir ++ ["README.md"]) ∨
        op = Op.writeF (dir ++ ["init.server.luau"]) ∨
        op = Op.writeF (dir ++ ["fumosync.json"]) ∨
        ∃ m ∈ info.source.modules, op = Op.writeF (dir ++ ["pkg", m.1 ++ ".luau"])) ∧
    (∀ (fs : FS) (secrets setEd : Except Nat Unit) (op : Op),
      op ∈ (push_project secrets setEd ⟨fs, []⟩).2.trace →
      (∀ p, op ≠ Op.writeF p) ∧ (∀ p, op ≠ Op.mkDir p) ∧
      (∀ p, op = Op.readF p → p ≠ [".vscode", "settings.json"] ∧ p ≠ ["types.d.luau"])) := by
  constructor
  · intro scriptId dir info s r s' hclean hplain h
    exact pullHydrate_trace_ops scriptId dir info hclean hplain s r s' h
  · intro fs secrets setEd op hop
    have hshape : op = Op.readF ["fumosync.json"] ∨ op = Op.readF ["README.md"] ∨
        op = Op.readF ["init.server.luau"] ∨ op = Op.readDir ["pkg"] ∨
        (∃ x, op = Op.readF ["pkg", x]) ∨ op = Op.getSessionSecrets ∨
        (∃ i a, op = Op.setEditor i a) := by
      rcases push_project_cases fs secrets setEd with ⟨e, hre, hp⟩ | ⟨cfg, hrc, hrest⟩
      · rw [snd_of_pair_eq hp] at hop
        simp at hop
        simp [hop]
      · rcases hrest with ⟨hrm, hp⟩ | ⟨dsc, hrm, hrest⟩
        · rw [snd_of_pair_eq hp] at hop
          simp at hop
          rcases hop with hop | hop <;> simp [hop]
        · rcases hrest with ⟨hmn, hp⟩ | ⟨mn, hmn, hrest⟩
          · rw [snd_of_pair_eq hp] at hop
            simp at hop
            rcases hop with hop | hop | hop <;> simp [hop]
          · rcases hrest with ⟨hdir, hp⟩ | ⟨hdir, d, hdops, hrest⟩
            · rw [snd_of_pair_eq hp] at hop
              simp only [pushReadOps] at hop
              simp at hop
              rcases hop with hop | hop | hop | hop <;> simp [hop]
            · have hmem : op ∈ pushReadOps ++ d →
                  op = Op.readF ["fumosync.json"] ∨ op = Op.readF ["README.md"] ∨
                  op = Op.readF ["init.server.luau"] ∨ op = Op.readDir ["pkg"] ∨
                  (∃ x, op = Op.readF ["pkg", x]) ∨ op = Op.getSessionSecrets ∨
                  (∃ i a, op = Op.setEditor i a) := by
                intro hmem
                rcases List.mem_append.mp hmem with h₁ | h₂
                · simp only [pushReadOps] at h₁
                  simp at h₁
                  rcases h₁ with h₁ | h₁ | h₁ | h₁ <;> simp [h₁]
                · obtain ⟨x, hx⟩ := hdops op h₂
                  exact Or.inr (Or.inr (Or.inr (Or.inr (Or.inl ⟨x, hx⟩))))
              rcases hrest with ⟨e, hdm, hp⟩ | ⟨mods, hdm, hrest⟩
              · rw [snd_of_pair_eq hp] at hop
                exact hmem hop
              · rcases hrest with ⟨c, hsec, hp⟩ | ⟨hsec, hrest⟩
                · rw [snd_of_pair_eq hp] at hop
                  rcases List.mem_append.mp hop with h₁ | h₂
                  · exact hmem h₁
                  · simp only [List.mem_singleton] at h₂
                    simp [h₂]
                · rcases hrest with ⟨c, hsed, hp⟩ | ⟨hsed, hp⟩
                  · rw [snd_of_pair_eq hp] at hop
                    rcases List.mem_append.mp hop with h₁ | h₂
                    · exact hmem h₁
                    · simp only [List.mem_cons, List.mem_singleton] at h₂
                      rcases h₂ with h₂ | h₂
                      · simp [h₂]
                      · simp at h₂
                        exact Or.inr (Or.inr (Or.inr (Or.inr (Or.inr (Or.inr
                          ⟨cfg.script_id, pushActions cfg dsc mn mods, h₂⟩)))))
                  · rw [snd_of_pair_eq hp] at hop
                    rcases List.mem_append.mp hop with h₁ | h₂
                    · exact hmem h₁
                    · simp only [List.mem_cons, List.mem_singleton] at h₂
                      rcases h₂ with h₂ | h₂
                      · simp [h₂]
                      · simp at h₂
                        exact Or.inr (Or.inr (Or.inr (Or.inr (Or.inr (Or.inr
                          ⟨cfg.script_id, pushActions cfg dsc mn mods, h₂⟩)))))
    rcases hshape with h | h | h | h | ⟨x, h⟩ | h | ⟨i, a, h⟩ <;> subst h
    · exact ⟨by simp, by simp, fun p hp => by
        simp at hp
        subst hp
        exact ⟨by decide, by decide⟩⟩
    · exact ⟨by simp, by simp, fun p hp => by
        simp at hp
        subst hp
        exact ⟨by decide, by decide⟩⟩
    · exact ⟨by simp, by simp, fun p hp => by
        simp at hp
        subst hp
        exact ⟨by decide, by decide⟩⟩
    · exact ⟨by simp, by simp, fun p hp => by simp at hp⟩
    · exact ⟨by simp, by simp, fun p hp => by
        simp at hp
        subst hp
        exact ⟨by simp, by simp⟩⟩
    · exact ⟨by simp, by simp, fun p hp => by simp at hp⟩
    · exact ⟨by simp, by simp, fun p hp => by simp at hp⟩

/-- Witness for C9: a concrete hydration after init on `./demo`, and a
concrete push read operation. -/
theorem c9_scaffold_frame_witness :
    (∃ d, ((pullHydrate "42" ["demo"] demoScript
        ⟨((init ["demo"] ⟨FS.empty, []⟩).2).fs, []⟩).2).trace = [] ++ d ∧
      ∀ op ∈ d,
        op = Op.writeF (["demo"] ++ ["README.md"]) ∨
        op = Op.writeF (["demo"] ++ ["init.server.luau"]) ∨
        op = Op.writeF (["demo"] ++ ["fumosync.json"]) ∨
        ∃ m ∈ demoScript.source.modules,
          op = Op.writeF (["demo"] ++ ["pkg", m.1 ++ ".luau"])) ∧
    ((∀ p, Op.readF ["fumosync.json"] ≠ Op.writeF p) ∧
     (∀ p, Op.readF ["fumosync.json"] ≠ Op.mkDir p) ∧
     (∀ p, Op.readF ["fumosync.json"] = Op.readF p →
        p ≠ [".vscode", "settings.json"] ∧ p ≠ ["types.d.luau"])) :=
  ⟨c9_scaffold_frame.1 "42" ["demo"] demoScript
     ⟨((init ["demo"] ⟨FS.empty, []⟩).2).fs, []⟩
     (pullHydrate "42" ["demo"] demoScript
       ⟨((init ["demo"] ⟨FS.empty, []⟩).2).fs, []⟩).1
     (pullHydrate "42" ["demo"] demoScript
       ⟨((init ["demo"] ⟨FS.empty, []⟩).2).fs, []⟩).2
     (by decide) (by simp only [noSlash]; decide) rfl,
   c9_scaffold_frame.2 pushableFS (.ok ()) (.ok ()) (Op.readF ["fumosync.json"])
     (by decide)⟩

/-- A snapshot whose single module name contains a parent-directory
component. -/
def traversalScript : ScriptInfo :=
  { name := "n", description := "d", whitelist := [], is_public := false,
    source := { main := "m", modules := [("../types.d", "x")] } }

set_option maxRecDepth 100000 in
/-- C9 counterexample: with a fetched module named `../types.d`, pull
succeeds, yet its final write lands on `demo/types.d.luau` — the joined
path `demo/pkg/../types.d.luau` resolves upward out of `pkg/` — replacing
the scaffold type-definition file with the module source, so the original
claim's write frame (only `README.md`, `init.server.luau`, `fumosync.json`
and files under `pkg/`) is violated. -/
theorem c9_scaffold_frame_counterexample :
    (pull_project "42" ["demo"] (.ok ()) (.ok traversalScript) ⟨FS.empty, []⟩).1 = .ok () ∧
    ((pull_project "42" ["demo"] (.ok ()) (.ok traversalScript)
        ⟨FS.empty, []⟩).2).trace.getLast? = some (Op.writeF ["demo", "types.d.luau"]) ∧
    lookupFile ((pull_project "42" ["demo"] (.ok ()) (.ok traversalScript)
        ⟨FS.empty, []⟩).2).fs.files ["demo", "types.d.luau"] = some (.text "x") ∧
    FileContent.text "x" ≠ FileContent.text typesStub := by
  refine ⟨by decide, by decide, by decide, by decide⟩

/-- C10: push acquires session secrets only after the configuration,
`README.md`, `init.server.luau` and every discovered module source have
been read successfully (if `getSessionSecrets` was attempted, the whole
local phase succeeded); hence a local read, parse or directory-enumeration
failure aborts the push with no network interaction of any kind. -/
theorem c10_push_network_last (fs : FS) (secrets setEd : Except Nat Unit) :
    (Op.getSessionSecrets ∈ (push_project secrets setEd ⟨fs, []⟩).2.trace →
      ∃ cfg dsc mn mods,
        (read_configuration ⟨fs, []⟩).1 = .ok cfg ∧
        lookupFile fs.files ["README.md"] = some dsc ∧
        lookupFile fs.files ["init.server.luau"] = some mn ∧
        FS.dirExists fs ["pkg"] = true ∧
        (discoverModules ⟨fs, []⟩ (FS.listDir fs ["pkg"])).1 = .ok mods) ∧
    (∀ e, (push_project secrets setEd ⟨fs, []⟩).1 = .error e →
      (e = .Deserialize ∨ (∃ p, e = .ReadFile p) ∨ (∃ p, e = .ReadDirectory p)) →
      ∀ op ∈ (push_project secrets setEd ⟨fs, []⟩).2.trace, isNetworkOp op = false) := by
  rcases push_project_cases fs secrets setEd with ⟨e, hre, hp⟩ | ⟨cfg, hrc, hrest⟩
  · constructor
    · intro hmem
      rw [snd_of_pair_eq hp] at hmem
      simp at hmem
    · intro e' he' hkind op hop
      rw [snd_of_pair_eq hp] at hop
      simp at hop
      simp [hop, isNetworkOp]
  · rcases hrest with ⟨hrm, hp⟩ | ⟨dsc, hrm, hrest⟩
    · constructor
      · intro hmem
        rw [snd_of_pair_eq hp] at hmem
        simp at hmem
      · intro e' he' hkind op hop
        rw [snd_of_pair_eq hp] at hop
        simp at hop
        rcases hop with hop | hop <;> simp [hop, isNetworkOp]
    · rcases hrest with ⟨hmn, hp⟩ | ⟨mn, hmn, hrest⟩
      · constructor
        · intro hmem
          rw [snd_of_pair_eq hp] at hmem
          simp at hmem
        · intro e' he' hkind op hop
          rw [snd_of_pair_eq hp] at hop
          simp at hop
          rcases hop with hop | hop | hop <;> simp [hop, isNetworkOp]
      · rcases hrest with ⟨hdir, hp⟩ | ⟨hdir, d, hdops, hrest⟩
        · constructor
          · intro hmem
            rw [snd_of_pair_eq hp] at hmem
            simp [pushReadOps] at hmem
          · intro e' he' hkind op hop
            rw [snd_of_pair_eq hp] at hop
            simp [pushReadOps] at hop
            rcases hop with hop | hop | hop | hop <;> simp [hop, isNetworkOp]
        · rcases hrest with ⟨e, hdm, hp⟩ | ⟨mods, hdm, hrest⟩
          · constructor
            · intro hmem
              rw [snd_of_pair_eq hp] at hmem
              rcases List.mem_append.mp hmem with h₁ | h₂
              · simp [pushReadOps] at h₁
              · obtain ⟨x, hx⟩ := hdops _ h₂
                cases hx
            · intro e' he' hkind op hop
              rw [snd_of_pair_eq hp] at hop
              rcases List.mem_append.mp hop with h₁ | h₂
              · simp [pushReadOps] at h₁
                rcases h₁ with h₁ | h₁ | h₁ | h₁ <;> simp [h₁, isNetworkOp]
              · obtain ⟨x, hx⟩ := hdops op h₂
                simp [hx, isNetworkOp]
          · have hloc : ∃ (cfg' : Configuration) (dsc' mn' : FileContent)
                (mods' : List (String × String)),
                (read_configuration ⟨fs, []⟩).1 = .ok cfg' ∧
                lookupFile fs.files ["README.md"] = some dsc' ∧
                lookupFile fs.files ["init.server.luau"] = some mn' ∧
                FS.dirExists fs ["pkg"] = true ∧
                (discoverModules ⟨fs, []⟩ (FS.listDir fs ["pkg"])).1 = .ok mods' :=
              ⟨cfg, dsc, mn, mods, hrc, hrm, hmn, hdir, hdm⟩
            rcases hrest with ⟨c, hsec, hp⟩ | ⟨hsec, hrest⟩
            · refine ⟨fun _ => hloc, ?_⟩
              intro e' he' hkind
              rw [fst_of_pair_eq hp] at he'
              simp at he'
              rcases hkind with hk | ⟨p, hk⟩ | ⟨p, hk⟩ <;> rw [hk] at he' <;> cases he'
            · rcases hrest with ⟨c, hsed, hp⟩ | ⟨hsed, hp⟩
              · refine ⟨fun _ => hloc, ?_⟩
                intro e' he' hkind
                rw [fst_of_pair_eq hp] at he'
                simp at he'
                rcases hkind with hk | ⟨p, hk⟩ | ⟨p, hk⟩ <;> rw [hk] at he' <;> cases he'
              · refine ⟨fun _ => hloc, ?_⟩
                intro e' he' hkind
                rw [fst_of_pair_eq hp] at he'
                cases he'

/-- Witness for C10: the successful push on `pushableFS` reaches the
network phase with all local reads done, and the failing push on the empty
filesystem attempts no network operation. -/
theorem c10_push_network_last_witness :
    (∃ cfg dsc mn mods,
      (read_configuration ⟨pushableFS, []⟩).1 = .ok cfg ∧
      lookupFile pushableFS.files ["README.md"] = some dsc ∧
      lookupFile pushableFS.files ["init.server.luau"] = some mn ∧
      FS.dirExists pushableFS ["pkg"] = true ∧
      (discoverModules ⟨pushableFS, []⟩ (FS.listDir pushableFS ["pkg"])).1 = .ok mods) ∧
    (∀ op ∈ (push_project (.ok ()) (.ok ()) ⟨FS.empty, []⟩).2.trace,
      isNetworkOp op = false) :=
  ⟨(c10_push_network_last pushableFS (.ok ()) (.ok ())).1 (by decide),
   (c10_push_network_last FS.empty (.ok ()) (.ok ())).2 (.ReadFile ["fumosync.json"])
     (by decide) (Or.inr (Or.inl ⟨["fumosync.json"], rfl⟩))⟩

end Fumosync
